import Mathlib

/-!
Verification of the matchbox-ai MENACE engine.

Shallow embedding of the TypeScript source:
  src/engine/types.ts, src/engine/gameUtils.ts, src/engine/symmetry.ts,
  src/engine/MenaceAgent.ts (the refactored version exporting PlayStyle,
  getCommand, Michie-style seeding and the resignation-aware train).

Modelling conventions:
  - A JS board array of cells X, O or null is a Lean list of Option Player.
  - JS strings produced by boardToString are lists of character codes
    (char X is 88, char O is 79, the underscore is 95); the JS string
    comparison used in getCanonicalState is code-by-code lexicographic
    comparison, mirrored by lexLt below.
  - Throwing functions return Option (none means the call threw).
  - Math.random at the weighted-draw site is modelled by an arbitrary
    natural threshold (the floor of random times the bead total compares
    with integer cumulative sums exactly like the real random value);
    Math.random at the uniform-pick sites is modelled by an arbitrary
    natural reduced modulo the length of the candidate list.
  - The agent memory (a JS Map) is an association list updated in place.
-/

namespace Menace

/-- The two players, cells hold some player or none (JS null). -/
inductive Player where
  | X : Player
  | O : Player
deriving DecidableEq, Repr

abbrev Cell := Option Player

/-- A board is the JS array of nine nullable cells. -/
abbrev Board := List Cell

/-- Non-null game results as used by checkWinner and train. -/
inductive GRes where
  | winX : GRes
  | winO : GRes
  | draw : GRes
deriving DecidableEq, Repr

/-- The result value equal to a given player (JS result === this.player). -/
def resultOf : Player → GRes
  | Player.X => GRes.winX
  | Player.O => GRes.winO

/-- WINNING_LINES from gameUtils.ts. -/
def WINNING_LINES : List (Nat × Nat × Nat) :=
  [(0, 1, 2), (3, 4, 5), (6, 7, 8),
   (0, 3, 6), (1, 4, 7), (2, 5, 8),
   (0, 4, 8), (2, 4, 6)]

/-- checkWinner from gameUtils.ts: scan the winning lines for three equal
non-null marks, else draw when no cell is null, else ongoing (none). -/
def checkWinner (board : Board) : Option GRes :=
  match WINNING_LINES.findSome? (fun l =>
    match board.getD l.1 none with
    | none => none
    | some p =>
        if board.getD l.2.1 none = some p ∧ board.getD l.2.2 none = some p then
          some p
        else none) with
  | some Player.X => some GRes.winX
  | some Player.O => some GRes.winO
  | none => if board.all (fun c => c.isSome) then some GRes.draw else none

/-- Helper recursion realizing the indexed reduce in getValidMoves. -/
def getValidMovesAux : Board → Nat → List Nat
  | [], _ => []
  | c :: rest, i =>
      if c = none then i :: getValidMovesAux rest (i + 1)
      else getValidMovesAux rest (i + 1)

/-- getValidMoves from gameUtils.ts: indices of null cells in ascending order. -/
def getValidMoves (board : Board) : List Nat :=
  getValidMovesAux board 0

/-- createEmptyBoard from gameUtils.ts. -/
def createEmptyBoard : Board := List.replicate 9 none

/-- makeMove from gameUtils.ts.  The JS code throws when board index is not
strictly null, which covers both occupied cells and out-of-range indices
(where the JS lookup yields undefined); those calls are modelled as none. -/
def makeMove (board : Board) (index : Nat) (player : Player) : Option Board :=
  match board.get? index with
  | some none => some (board.set index (some player))
  | _ => none

/-- countMoves from gameUtils.ts. -/
def countMoves (board : Board) : Nat :=
  (board.filter (fun c => c.isSome)).length

/-! Symmetry reducer (symmetry.ts).  Each transform is the index map given
by its precomputed lookup table. -/

/-- Identity transform (index 0). -/
def identity (i : Nat) : Nat := i

/-- 90 degree clockwise rotation (index 1). -/
def rotate90 (i : Nat) : Nat := [6, 3, 0, 7, 4, 1, 8, 5, 2].getD i 0

/-- 180 degree rotation (index 2). -/
def rotate180 (i : Nat) : Nat := [8, 7, 6, 5, 4, 3, 2, 1, 0].getD i 0

/-- 270 degree clockwise rotation (index 3). -/
def rotate270 (i : Nat) : Nat := [2, 5, 8, 1, 4, 7, 0, 3, 6].getD i 0

/-- Horizontal reflection (index 4). -/
def reflectHorizontal (i : Nat) : Nat := [2, 1, 0, 5, 4, 3, 8, 7, 6].getD i 0

/-- Reflection followed by 90 degree rotation (index 5). -/
def reflectRotate90 (i : Nat) : Nat := rotate90 (reflectHorizontal i)

/-- Reflection followed by 180 degree rotation (index 6). -/
def reflectRotate180 (i : Nat) : Nat := rotate180 (reflectHorizontal i)

/-- Reflection followed by 270 degree rotation (index 7). -/
def reflectRotate270 (i : Nat) : Nat := rotate270 (reflectHorizontal i)

/-- TRANSFORMATIONS from symmetry.ts, in source order. -/
def TRANSFORMATIONS : List (Nat → Nat) :=
  [identity, rotate90, rotate180, rotate270,
   reflectHorizontal, reflectRotate90, reflectRotate180, reflectRotate270]

/-- Transform with a given index (the JS array lookup; indices used by the
source are always below 8, the default branch is never exercised there). -/
def tf (k : Nat) : Nat → Nat := TRANSFORMATIONS.getD k identity

/-- applyTransform from symmetry.ts: cell i of the result is cell t(i) of
the input board. -/
def applyTransform (board : Board) (t : Nat → Nat) : Board :=
  (List.range 9).map (fun i => board.getD (t i) none)

/-- Character code of one cell in boardToString (underscore, X, O). -/
def cellCode : Cell → Nat
  | none => 95
  | some Player.X => 88
  | some Player.O => 79

/-- boardToString from symmetry.ts, as the list of character codes. -/
def boardToString (board : Board) : List Nat :=
  board.map cellCode

/-- JS lexicographic string comparison (strict less-than), code by code. -/
def lexLt : List Nat → List Nat → Bool
  | [], [] => false
  | [], _ :: _ => true
  | _ :: _, [] => false
  | a :: as, b :: bs =>
      if a < b then true
      else if b < a then false
      else lexLt as bs

/-- The value part of the canonicalization scan: keep the strictly
smaller string, scanning left to right. -/
def foldMin (init : List Nat) (l : List (List Nat)) : List Nat :=
  l.foldl (fun m s => if lexLt s m then s else m) init

/-- One step of the getCanonicalState scan: keep the strictly smaller string. -/
def canonStep (board : Board) (acc : List Nat × Nat) (i : Nat) : List Nat × Nat :=
  let s := boardToString (applyTransform board (tf i))
  if lexLt s acc.1 then (s, i) else acc

/-- getCanonicalState from symmetry.ts: scan transforms 1 to 7 keeping the
lexicographically smallest serialization (ties keep the earlier index). -/
def getCanonicalState (board : Board) : List Nat × Nat :=
  ((List.range 8).drop 1).foldl (canonStep board) (boardToString board, 0)

/-- mapCanonicalMoveToActual from symmetry.ts: linear scan for the actual
index whose image under the transform is the canonical index; the JS throw
when no index matches is modelled as none. -/
def mapCanonicalMoveToActual (canonicalMoveIndex transformIndex : Nat) : Option Nat :=
  (List.range 9).find? (fun i => tf transformIndex i = canonicalMoveIndex)

/-! MENACE agent (MenaceAgent.ts, the version with PlayStyle and getCommand). -/

/-- Matchbox from types.ts: bead counts per canonical cell plus cached sum. -/
structure Matchbox where
  beads : List Int
  totalBeads : Int
deriving DecidableEq, Repr

/-- MoveRecord from types.ts. -/
structure MoveRecord where
  canonicalState : List Nat
  moveIndex : Nat
  actualMoveIndex : Nat
  transformIndex : Nat
deriving DecidableEq, Repr

/-- The agent memory: the JS Map from canonical state to matchbox, as an
insertion-ordered association list with unique keys. -/
abbrev Memory := List (List Nat × Matchbox)

/-- JS Map.set: replace the binding in place when the key is present,
otherwise append a new binding. -/
def memSet (m : Memory) (k : List Nat) (v : Matchbox) : Memory :=
  if m.any (fun kv => kv.1 = k) then
    m.map (fun kv => if kv.1 = k then (k, v) else kv)
  else m ++ [(k, v)]

/-- JS Map.get as first-match association lookup. -/
def memGet (m : Memory) (k : List Nat) : Option Matchbox :=
  (m.find? (fun kv => kv.1 = k)).map (fun kv => kv.2)

/-- PlayStyle from MenaceAgent.ts. -/
inductive PlayStyle where
  | PROBABILISTIC : PlayStyle
  | MASTER : PlayStyle
deriving DecidableEq, Repr

/-- getInitialBeads from MenaceAgent.ts (the Michie-style cascade). -/
def getInitialBeads (turnNumber : Nat) : Int :=
  if turnNumber ≤ 1 then 4
  else if turnNumber = 3 then 3
  else if turnNumber = 5 then 2
  else if turnNumber ≥ 7 then 1
  else if turnNumber = 2 then 4
  else if turnNumber = 4 then 3
  else if turnNumber = 6 then 2
  else 1

/-- initializeMatchbox from MenaceAgent.ts: derive the turn number from the
empty-cell count of the canonical board, then give every valid move that
many beads (all indices passed by the source are below nine, so the
out-of-range no-op of List.set is never exercised). -/
def initializeMatchbox (board : Board) (validMoves : List Nat) : Matchbox :=
  let emptyCount := (board.filter (fun c => c = none)).length
  let turnNumber := 10 - emptyCount
  let beadCount := getInitialBeads turnNumber
  let res := validMoves.foldl
    (fun (acc : List Int × Int) mv => (acc.1.set mv beadCount, acc.2 + beadCount))
    (List.replicate 9 0, 0)
  { beads := res.1, totalBeads := res.2 }

/-- The cumulative walk of the weighted draw in selectMoveFromMatchboxFiltered:
positive bead counts accumulate until the random threshold is passed. -/
def walkBeads (beads : List Int) (r : Int) : Int → List Nat → Option Nat
  | _, [] => none
  | cum, mv :: rest =>
      let bc := beads.getD mv 0
      if 0 < bc then
        if r < cum + bc then some mv
        else walkBeads beads r (cum + bc) rest
      else walkBeads beads r cum rest

/-- The restricted bead total of selectMoveFromMatchboxFiltered (only
positive bead counts at the given indices are summed). -/
def totalValidBeads (beads : List Int) (validMoveIndices : List Nat) : Int :=
  validMoveIndices.foldl
    (fun acc mv => let bc := beads.getD mv 0; if 0 < bc then acc + bc else acc) 0

/-- selectMoveFromMatchboxFiltered from MenaceAgent.ts.  The natural rw is
the floor of the weighted random draw, ru drives the two mutually exclusive
uniform picks; the JS throw on an empty candidate list is none. -/
def selectMoveFromMatchboxFiltered (matchbox : Matchbox)
    (validMoveIndices : List Nat) (rw ru : Nat) : Option Nat :=
  let total := totalValidBeads matchbox.beads validMoveIndices
  if total = 0 then
    if validMoveIndices.length = 0 then none
    else validMoveIndices.get? (ru % validMoveIndices.length)
  else
    match walkBeads matchbox.beads (Int.ofNat rw) 0 validMoveIndices with
    | some mv => some mv
    | none =>
        match validMoveIndices.find? (fun mv => decide (0 < matchbox.beads.getD mv 0)) with
        | some mv => some mv
        | none => validMoveIndices.get? (ru % validMoveIndices.length)

/-- One step of the greedy scan in the MASTER branch of getCommand: none as
the running maximum plays the role of negative infinity.  (For bead lists
shorter than nine the JS lookup yields undefined and skips the index; the
source only ever builds nine-entry bead lists, modelled by the default 0.) -/
def masterStep (beads : List Int) (acc : Option Int × List Nat) (mv : Nat) :
    Option Int × List Nat :=
  let b := beads.getD mv 0
  match acc.1 with
  | none => (some b, [mv])
  | some m =>
      if b > m then (some b, [mv])
      else if b = m then (acc.1, acc.2 ++ [mv])
      else acc

/-- The MASTER branch of getCommand: collect the argmax candidates, break
ties uniformly; an empty candidate list falls through to an undefined JS
index access, modelled as none. -/
def masterSelect (matchbox : Matchbox) (canonicalValidMoves : List Nat)
    (ru : Nat) : Option Nat :=
  let best := (canonicalValidMoves.foldl (masterStep matchbox.beads) (none, [])).2
  if best.length = 0 then
    canonicalValidMoves.get? (ru % canonicalValidMoves.length)
  else best.get? (ru % best.length)

/-- Rebuild a board from a canonical state string (the split-map inside
getCommand): code 88 is X, code 79 is O, anything else null. -/
def canonicalToBoard (codes : List Nat) : Board :=
  codes.map (fun c => if c = 88 then some Player.X
                      else if c = 79 then some Player.O else none)

/-- The data returned by getCommand. -/
structure Command where
  canonicalMoveIndex : Nat
  actualMoveIndex : Nat
  transformIndex : Nat
  canonicalState : List Nat
  matchbox : Matchbox
deriving DecidableEq, Repr

/-- The lazy get-or-create of getCommand: an existing matchbox is reused,
otherwise one is seeded from the canonical board (its own occupancy and
valid moves) and inserted. -/
def seedMatchbox (mem : Memory) (canonical : List Nat) : Matchbox × Memory :=
  match memGet mem canonical with
  | some mb => (mb, mem)
  | none =>
      (initializeMatchbox (canonicalToBoard canonical)
        (getValidMoves (canonicalToBoard canonical)),
       memSet mem canonical
        (initializeMatchbox (canonicalToBoard canonical)
          (getValidMoves (canonicalToBoard canonical))))

/-- The style dispatch of getCommand. -/
def styleSelect (style : PlayStyle) (mb : Matchbox) (cvm : List Nat)
    (rw ru : Nat) : Option Nat :=
  match style with
  | PlayStyle.MASTER => masterSelect mb cvm ru
  | PlayStyle.PROBABILISTIC => selectMoveFromMatchboxFiltered mb cvm rw ru

/-- The tail of getCommand: map the canonical choice back to the actual
board and assemble the command (failures propagate as none). -/
def finishCommand (canonical : List Nat) (transformIndex : Nat)
    (mem1 : Memory) (mb : Matchbox) : Option Nat → Option Command × Memory
  | none => (none, mem1)
  | some canonicalMoveIndex =>
      match mapCanonicalMoveToActual canonicalMoveIndex transformIndex with
      | none => (none, mem1)
      | some actualMoveIndex =>
          (some { canonicalMoveIndex := canonicalMoveIndex,
                  actualMoveIndex := actualMoveIndex,
                  transformIndex := transformIndex,
                  canonicalState := canonical,
                  matchbox := mb }, mem1)

/-- getCommand from MenaceAgent.ts: canonicalize, lazily seed the matchbox
from the canonical board, map the actual valid moves forward through the
chosen transform, select (per style), and map the choice back.  The pair
also carries the possibly grown memory; none with a memory means the JS
call threw after the matchbox had been inserted. -/
def getCommand (mem : Memory) (board : Board) (style : PlayStyle)
    (rw ru : Nat) : Option Command × Memory :=
  finishCommand (getCanonicalState board).1 (getCanonicalState board).2
    (seedMatchbox mem (getCanonicalState board).1).2
    (seedMatchbox mem (getCanonicalState board).1).1
    (styleSelect style (seedMatchbox mem (getCanonicalState board).1).1
      ((getValidMoves board).map (tf (getCanonicalState board).2)) rw ru)

/-- The loss update of train: decrement by one, clamped at zero. -/
def lossUpdate (mb : Matchbox) (idx : Nat) : Matchbox :=
  let oldCount := mb.beads.getD idx 0
  let newCount := max 0 (oldCount - 1)
  { beads := mb.beads.set idx newCount,
    totalBeads := mb.totalBeads + (newCount - oldCount) }

/-- The win or draw update of train: add the given reward. -/
def addUpdate (mb : Matchbox) (idx : Nat) (add : Int) : Matchbox :=
  { beads := mb.beads.set idx (mb.beads.getD idx 0 + add),
    totalBeads := mb.totalBeads + add }

/-- The loop body of train: walk the recorded moves in order, skipping
records whose matchbox is missing; on a loss update that leaves every bead
of the touched matchbox at zero, stop immediately (resignation, the Bool
result), leaving the remaining records untouched. -/
def trainGo (isWin isDraw : Bool) : Memory → List MoveRecord → Memory × Bool
  | mem, [] => (mem, false)
  | mem, rec :: rest =>
      match memGet mem rec.canonicalState with
      | none => trainGo isWin isDraw mem rest
      | some mb =>
          if isWin then
            trainGo isWin isDraw
              (memSet mem rec.canonicalState (addUpdate mb rec.moveIndex 3)) rest
          else if isDraw then
            trainGo isWin isDraw
              (memSet mem rec.canonicalState (addUpdate mb rec.moveIndex 1)) rest
          else
            let mb1 := lossUpdate mb rec.moveIndex
            let mem1 := memSet mem rec.canonicalState mb1
            if mb1.beads.all (fun b => b = 0) then (mem1, true)
            else trainGo isWin isDraw mem1 rest

/-- train from MenaceAgent.ts: resolve the result against the agent player
(win plus three, draw plus one, loss minus one clamped at zero), apply the
updates through trainGo, clear the history in every exit path, and return
-1 when the resignation early exit fired. -/
def train (player : Player) (mem : Memory) (history : List MoveRecord)
    (result : GRes) : Memory × List MoveRecord × Option Int :=
  let res := trainGo (decide (result = resultOf player))
    (decide (result = GRes.draw)) mem history
  (res.1, [], if res.2 then some (-1) else none)

/-- Repeated training calls on one agent memory (each call consumes its own
per-game history and result). -/
def trainMany (player : Player) (mem : Memory)
    (games : List (GRes × List MoveRecord)) : Memory :=
  games.foldl (fun m g => (train player m g.2 g.1).1) mem

/-- One element produced by iterating the parsed value inside importMemory,
at the granularity the loop body distinguishes: an object, whose state,
beads and totalBeads properties each hold a value of the declared shape or
the undefined value (accessing an absent property of an object does not
throw); a non-null primitive such as a number, boolean or string, whose
property accesses all yield undefined without throwing; or the null value,
whose property access throws a TypeError. -/
inductive JItem where
  | jobj : Option (List Nat) → Option (List Int) → Option Int → JItem
  | jprim : JItem
  | jnull : JItem
deriving DecidableEq, Repr

/-- A value JSON.parse can return, at the granularity the for-of loop
distinguishes: an array, which iterates its items; a string, which
iterates its characters, each a one-character string behaving as a
primitive item; or a non-iterable value (a number, boolean, null or plain
object), on which for-of throws a TypeError at once. -/
inductive JParsed where
  | jarr : List JItem → JParsed
  | jstr : List Nat → JParsed
  | jnoniter : JParsed
deriving DecidableEq, Repr

/-- The input blob as JSON.parse sees it: rejected with a SyntaxError, or
parsed to a value. -/
inductive ImportBlob where
  | malformed : ImportBlob
  | parsed : JParsed → ImportBlob

/-- A Map value written by the import loop: each field holds the iterated
item's property, or the undefined value when the property is absent. -/
structure RawBox where
  beads : Option (List Int)
  totalBeads : Option Int
deriving DecidableEq, Repr

/-- The store as the import loop writes it: keys are JS values, either a
string key or the undefined key that garbage iterations produce. -/
abbrev RawMemory := List (Option (List Nat) × RawBox)

/-- JS Map.set on the raw store (replace the binding in place when the key
is present, otherwise append a new binding). -/
def rawSet (m : RawMemory) (k : Option (List Nat)) (v : RawBox) : RawMemory :=
  if m.any (fun kv => kv.1 = k) then
    m.map (fun kv => if kv.1 = k then (k, v) else kv)
  else m ++ [(k, v)]

/-- The typed store viewed as a raw store: every key a string, every field
present. -/
def memToRaw (mem : Memory) : RawMemory :=
  mem.map (fun kv => (some kv.1, ⟨some kv.2.beads, some kv.2.totalBeads⟩))

/-- The for-of body of importMemory over the parsed items: an object item
is inserted under its state property, a primitive item is inserted under
the undefined key, and a null item throws on property access, aborting the
loop with the store as filled so far (the Bool reports whether the loop ran
to completion). -/
def importLoop : RawMemory → List JItem → RawMemory × Bool
  | m, [] => (m, true)
  | m, JItem.jobj st bd tb :: rest => importLoop (rawSet m st ⟨bd, tb⟩) rest
  | m, JItem.jprim :: rest => importLoop (rawSet m none ⟨none, none⟩) rest
  | m, JItem.jnull :: _ => (m, false)

/-- importMemory from MenaceAgent.ts: JSON.parse, Map.clear, then the for-of
refill; every error is caught and logged, never rethrown (the Bool reports
whether the body ran to completion).  A parse failure happens before the
clear and preserves the store; a non-iterable parse result throws at for-of
right after the clear, leaving the store empty; a string parse result
iterates its characters after the clear; an array parse result iterates its
items after the clear. -/
def importMemory (mem : Memory) (blob : ImportBlob) : RawMemory × Bool :=
  match blob with
  | ImportBlob.malformed => (memToRaw mem, false)
  | ImportBlob.parsed JParsed.jnoniter => ([], false)
  | ImportBlob.parsed (JParsed.jstr chars) =>
      importLoop [] (chars.map (fun _ => JItem.jprim))
  | ImportBlob.parsed (JParsed.jarr items) => importLoop [] items

/-- Every bead of every matchbox in the store is non-negative. -/
def memNonneg (m : Memory) : Prop :=
  ∀ kv ∈ m, ∀ x ∈ kv.2.beads, 0 ≤ x

/-- The update train applies to one record, by outcome. -/
def trainUpdateOf (player : Player) (result : GRes) (mb : Matchbox)
    (idx : Nat) : Matchbox :=
  if result = resultOf player then addUpdate mb idx 3
  else if result = GRes.draw then addUpdate mb idx 1
  else lossUpdate mb idx

/-! Exhaustive enumeration of the canonical states reachable by legal
alternating play from the empty board (the enumeration harness; board
mechanics, canonicalization and terminality all come from the definitions
above).  Because canonicalization commutes with the symmetry group, the
canonical identifiers of the successors of a position depend only on the
canonical identifier of the position, so the search expands canonical
representatives directly; each level is deduplicated.  To keep the kernel
computation tractable, identifiers (lists of nine character codes, each
below 128) are packed into single naturals by base-128 Horner evaluation;
encodeId is injective on such lists (proved below), so counting distinct
packed identifiers counts distinct identifiers. -/

/-- Pack an identifier into one natural, base 128, leading one. -/
def encodeId (l : List Nat) : Nat :=
  l.foldl (fun a c => a * 128 + c) 1

/-- Unpack n base-128 digits from a packed identifier. -/
def decodeIdAux : Nat → Nat → List Nat
  | 0, _ => []
  | n + 1, e => decodeIdAux n (e / 128) ++ [e % 128]

/-- Unpack a packed nine-code identifier. -/
def decodeId (e : Nat) : List Nat := decodeIdAux 9 e

/-- The base-128 value of a digit list (zero initial accumulator). -/
def valE (l : List Nat) : Nat :=
  l.foldl (fun a c => a * 128 + c) 0

/-- Drop the packed identifiers already seen, keeping first occurrences. -/
def dedupGoE (seen : List Nat) : List Nat → List Nat
  | [] => []
  | x :: xs =>
      if seen.contains x then dedupGoE seen xs
      else x :: dedupGoE (x :: seen) xs

/-- Canonical identifiers of all successors of one canonical position:
no successors at terminal positions, otherwise the player to move is X
exactly when the piece count is even (X moves first). -/
def childIds (id : List Nat) : List (List Nat) :=
  let b := canonicalToBoard id
  match checkWinner b with
  | some _ => []
  | none =>
      let p := if countMoves b % 2 = 0 then Player.X else Player.O
      (getValidMoves b).filterMap
        (fun i => (makeMove b i p).map (fun b2 => (getCanonicalState b2).1))

/-- Packed identifiers of all successors of one packed canonical position. -/
def childIdsE (e : Nat) : List Nat :=
  (childIds (decodeId e)).map encodeId

/-- All packed canonical identifiers one move deeper than the given level,
deduplicated. -/
def nextIdsE (ids : List Nat) : List Nat :=
  dedupGoE [] (ids.flatMap childIdsE)

/-- Levels of the reachability search, one per piece count. -/
def levelsAuxE : Nat → List Nat → List (List Nat)
  | 0, cur => [cur]
  | n + 1, cur => cur :: levelsAuxE n (nextIdsE cur)

/-- The ten levels (piece counts zero through nine) of reachable packed
canonical identifiers, starting from the canonical identifier of the
empty board. -/
def reachLevelsE : List (List Nat) :=
  levelsAuxE 9 [encodeId (getCanonicalState createEmptyBoard).1]

/-- All packed canonical identifiers reachable by legal play, terminal
positions included; proved duplicate-free below (each level is a
deduplicated expansion and levels differ in piece count). -/
def reachableIdsE : List Nat :=
  reachLevelsE.flatten

/-- Piece count of the position behind a packed identifier. -/
def pieceCountE (e : Nat) : Nat :=
  countMoves (canonicalToBoard (decodeId e))

/-- The number of distinct reachable canonical identifiers. -/
def reachableCanonicalCount : Nat := reachableIdsE.length

/-- The distinct reachable canonical identifiers of non-terminal positions
with X to move and fewer than eight pieces: the decision points of the
first player, the states classic MENACE builds matchboxes for. -/
def xDecisionIdsE : List Nat :=
  ((reachLevelsE.getD 0 []) ++ (reachLevelsE.getD 2 []) ++
   (reachLevelsE.getD 4 []) ++ (reachLevelsE.getD 6 [])).filter
    (fun e => (checkWinner (canonicalToBoard (decodeId e))).isNone)

/-- The number of first-player decision states. -/
def xDecisionCount : Nat := xDecisionIdsE.length

/-- Precomputed level 0 (packed identifiers of positions with 0 pieces). -/
def elvl0 : List Nat :=
  [16122744820328820703]

/-- Precomputed level 1 (packed identifiers of positions with 1 pieces). -/
def elvl1 : List Nat :=
  [15618341662063325151, 16118804170654871519, 16122744818449772511]

/-- Precomputed level 2 (packed identifiers of positions with 2 pieces). -/
def elvl2 : List Nat :=
  [15609334462808584159, 14969792529396395999, 15618341657768357855, 15618341662029770719, 14969823315721973720, 14965882666048024543, 16113737380555911135, 16118804166359904223, 14969823315707293663, 16113737621074078815, 14969823313842925535, 16113737619195031519]

/-- Precomputed level 3 (packed identifiers of positions with 3 pieces). -/
def elvl3 : List Nat :=
  [15609303676483006431, 15609334222290415583, 15609334460929535967, 15609334462793904095, 15609334462808469471, 15609334462808583263, 15609334462808584152, 14965851879722446815, 14965882666047909855, 14969792527517347807, 14969792529381715935, 14969792529396281311, 14969792529396395103, 14969792529396395992, 15614401008094408671, 15618310871442780127, 15618341657753677791, 15618341657768357848, 15614401012355821535, 15614401012389373919, 15618341660150722527, 15618310875737745375, 15618341662029769823, 14965882666048024536, 14969823313842925528, 14969823315707293656, 14965882425529855967, 14965882664168976351, 14965882666033344479, 14965882666048023647, 16113737378676862943, 16113737380541231071, 16113737380555910239, 16118803925841735647, 16118804166359903327, 14969823313828245471, 14969823315707292767, 16113737619195030623]

/-- Precomputed level 4 (packed identifiers of positions with 4 pieces). -/
def elvl4 : List Nat :=
  [15609303126727192543, 15609303672188039135, 14969792529362841560, 15609303676483004383, 14960785330126974943, 15609334217995448287, 15609334222256861151, 14965851879688892383, 15609334222290413535, 14969823315688418392, 14960785328262606815, 15609333911173722079, 15609334460895981535, 14969792527483793375, 15609334460929533919, 14969823313809371096, 14960785089623486431, 15609333913038090207, 15609334458498936799, 14969792529362840671, 15609334462793902047, 14965882666014470104, 14960785330141655000, 15609334458513502175, 15609334462774915039, 15609334462808467423, 14969792529396393944, 14960785330141654111, 15609334458513615967, 15609334462775028831, 14965882666047907807, 14965882666048022488, 14960785330141540319, 15609333913052770264, 15609334458513616856, 15609334462775029720, 14969792529362726879, 15609334462808582104, 14960815875948949471, 14965851875427479519, 14965851879722184671, 14965851879722444767, 14965851879722446799, 14965812297303732191, 14965882661752942559, 14965882666014355423, 14965882666047909839, 14960816114588069855, 14969752945098633183, 14969792527517345759, 14969792527517347791, 14960816116467117151, 14969792525086748639, 14969752946977680479, 14969792529381713887, 14969792525101314015, 14969792529396281295, 14960816116452437983, 14969792525101427807, 14965882666047762392, 14960816116467118040, 14969792525101428696, 14969752946977681368, 15614401008060854239, 15614401008094406623, 14969823311412326360, 15618310871442778079, 15618341657734802527, 14965882661753057240, 15614401012355819487, 14960816116452552664, 14960816116467231832, 15618341660150720479, 14960816114588184536, 14960815875949064152, 14965812056785678303, 14965882421234888671, 14965882425496301535, 14965882425529855951, 14965812295424798687, 14960815874070015967, 14965882664135421919, 14965882664168714207, 14965882664168974303, 14965882664168976335, 14960815875949063263, 14965882661738377183, 14965882666033082335, 14965882666033342431, 14965882666033344463, 14965812297303845983, 14960815875934384095, 14965882661753056351, 14965882666014469215, 14965882666047761503, 14965882666048023631, 14960816114573504479, 16113737069424537567, 16113737378676860895, 14969823313809370207, 16113737376246263775, 16113737380541229023, 14960816116452551775, 16113737376260942943, 16113737071303584863, 14969823311412325471, 14960816114588183647, 14969752945098746975]

/-- Precomputed level 5 (packed identifiers of positions with 5 pieces). -/
def elvl5 : List Nat :=
  [15609303124848144351, 15609303126712512479, 15609303126727077855, 15609303126727191647, 15609303126727192536, 15609303431669870559, 15609303672187924447, 15609303672188038239, 14965851879688892376, 14965882666047907800, 14969792527483793368, 14969792529362726872, 14969792529362840664, 15609303435964835807, 15609303674603956191, 15609303676482889695, 14960785089608806367, 14960785328247926751, 14960785330126860255, 14960785330126974047, 14960785330126974936, 15609334217980768223, 15609334217995333599, 15609334217995447391, 15609334217995448280, 15609334220377812959, 15609334222256746463, 15609334222256860255, 15609334222256861144, 14965851639170723807, 14965851877809844191, 14965851879688777695, 14965851879688891487, 15609334220411365343, 15609334222275733471, 15609334222290298847, 15609334222290413528, 14965882666014469208, 14965882666033342424, 14969823313809370200, 14969792529381713880, 14960785087744438239, 14960785328262492127, 14960785328262605919, 14960785328262606808, 15609333911159042015, 15609333911173722072, 15609334460895866847, 15609334460895980639, 15609334460895981528, 14965882664168859615, 14969792527483678687, 14969792527483792479, 15609334460914853855, 15609334460929419231, 15609334460929533912, 14965882664135421912, 14965882664168974296, 14969792527517345752, 14960785089623371743, 14960785089623485535, 14960785089623486424, 15609333913038089311, 15609333913038090200, 15609334458498822111, 15609334458498935903, 15609334458498936792, 14965882666033227743, 14969792529362725983, 15609334462793787359, 14965882425496301528, 14965882666014355416, 14960785330141540312, 14960785330141654104, 15609334458513501279, 15609334458513502168, 15609334462774914143, 15609334462774915032, 14965851879722444760, 14960785330141539423, 15609334458513615960, 14965851879722330079, 14960815874069901279, 14960815875934269407, 14960815875948948575, 14960815875948949464, 14965851634909310943, 14965851875412799455, 14965851875427364831, 14965851875427478623, 14965851875427479512, 14965812056785563615, 14965851877843136479, 14965851879707504607, 14965851879722183775, 14965851879722184664, 14965851639204276191, 14965851877843396575, 14965851879707764703, 14965851639204278223, 14965851877843398607, 14965851879707766735, 14965851879722332111, 14965851879722445903, 14965812295424683999, 14965812056785678296, 14965812297303731295, 14965812297303732184, 14965882661738262495, 14965882661752941663, 14965882661752942552, 14965882664135307231, 14965882666014354527, 14965882664168861647, 14965882666033229775, 14960816114573389791, 14960816114588068959, 14960816114588069848, 14965882664168714200, 14969752945098632287, 14969752945098633176, 14969792527502665695, 14969792527517233103, 14960816116452437087, 14960816116467117144, 14969792525086633951, 14969792525086747743, 14969792525086748632, 14965882666033082328, 14969752946977680472, 14969792525101314008, 14960816116452437976, 14969792525101427800, 15614400767542685663, 15614401008060739551, 15614401008060853343, 15614370221768828895, 15614401008079726559, 14965882661738377176, 14965882661753056344, 14969823311412325464, 14965882421234888664, 15614400771837650911, 15614401010476771295, 14960815875934384088, 14960816114573504472, 14960816116452551768, 14960815875949063256, 14960816114588183640, 14960815874070015960, 14965812054906630111, 14965812056770998239, 14965812056785677407, 14965882421220208607, 14965882423617253343, 14965882425496300639, 14965882423650807759, 14965882425515175887, 14965812295424797791, 14960815874055335903, 14960815874070015071, 14965882664135421023, 14965882664154034143, 14965882664168713311, 14965882664154294239, 14965882664154296271, 14965882664168975439, 14960815875934383199, 14965882661738376287, 14965882666033081439, 14960816114573503583, 16113737069424536671, 16113737378662180831, 16113737376246262879]

/-- Precomputed level 6 (packed identifiers of positions with 6 pieces). -/
def elvl6 : List Nat :=
  [15609303124814589919, 14960785328229052376, 15609303124848142303, 14969792527483791320, 15609303122417545183, 14960785330108099672, 15609303126712510431, 14965851879688890328, 15609303122432110559, 15609303126693523423, 14969792529362724824, 15609303122432224351, 15609303126693637215, 14960785089589931992, 14965882666014353368, 15609303122432225240, 14960785330107985880, 15609303126727190488, 14965851875393925080, 15609303431669868511, 14969792525067873368, 15609303672187922399, 14969792525067759576, 14965882661752940504, 14960815875948947416, 14965851879688630232, 14965812297303730136, 14960816114588067800, 14969752945098631128, 14960785330141538264, 14960816116452435928, 14960785085313839071, 14960785089608544223, 14960785089608804319, 14960785089608806351, 14960784778492112863, 14960785328247664607, 14960785328247924703, 14960785328247926735, 14960784780371046367, 14960785325831892959, 14960785330126858207, 14960785330126860239, 14960784780371160159, 14960785325832006751, 14960785330126711903, 14960785330126974031, 14965851875393924191, 15609334217980766175, 14965882661719501912, 15609334217961892959, 14965851634875756511, 14965882661738375128, 15609334217961893848, 14965851875393810399, 15609334217995446232, 14965851877809842143, 15609334220377810911, 14960816114554629208, 14965851639170721759, 14960815875915508824, 14965851879688775647, 15609333913019214936, 14965812056785561567, 14960815874069899231, 14965851877809582047, 14960785089623369695, 14960815875934267359, 14965851879688629343, 14960816114573502424, 14960815875934382040, 14960785087710883807, 14960785087744176095, 14960785087744436191, 14960785087744438223, 14960784778506792031, 14960785328229051487, 14960785328262343775, 14960785328262605903, 14960784778506792920, 14960785328262344664, 14960785328262604760, 15609333911140166751, 14965882664135419864, 15609334460895864799, 14960816114554515416, 14965882664135305183, 14960815874036461528, 14965812295424681951, 14960816114573387743, 14965882664135159768, 14960815874070013912, 14960785085328404447, 14960785089589817311, 14960785089623371727, 14960785085328518239, 14960785089589931103, 14960785089623223391, 14960785089623485519, 14960785085328519128, 14960785089623224280, 14960785089623484376, 15609333908743122015, 14965882425496299480, 15609333908743122904, 14960785330107984991, 15609334458498820063, 14965882661719388120, 14965882661738260447, 14965882421201334232, 14969792525067758687, 14965812056785676248, 14960784780385726424, 14960785325846573016, 14960784780385840216, 14960785325846686808, 14960785330141391960, 15609334458479946847, 14965851875427477464, 15609334458479947736, 14960815875915395032, 14960785325846572127, 14960785330141539407, 14965851875427362783, 14960745505325723615, 14960815874036346847, 14960815874069901263, 14960745507190091743, 14960815871639302111, 14960815875934269391, 14960745507204770911, 14960815871653981279, 14960815875915394143, 14960815875948948559, 14960745507204771800, 14960815871653982168, 14965812052490596319, 14965851634909308895, 14965851634909310927, 14965851875412537311, 14965851875412797407, 14965851875412799439, 14965851875427364815, 14965851875427216479, 14965851875427478607, 14965851875427217368, 14960815875948801112, 14965812056785563599, 14960816114587921496, 14965851877843136463, 14960816116452289624, 14965851879707504591, 14965812297303583832, 14960816116452437071, 14960816114588068943, 14960815874069753816, 14965812295424536536, 14965812052490711000, 14965812056785416152, 14965812293008763999, 14960815875934121944, 14965812293008764888, 14965882661738262479, 14965882661719387231, 14960816114573389775, 14960745505325838296, 14960745745843891295, 14960816114554514527, 14960745745843892184, 14960816114573242328, 14960745507204885592, 14960816112157469791, 14965882661738115032, 14960816112157470680, 15614400767542683615, 14960816112157584472, 14960815871639416792, 14960815871654095960, 14960815566696737880, 14960815564817690584, 14960815874069752927, 14965812054906367967, 14965812054906628063, 14965812054906630095, 14965812052476030943, 14965812056770736095, 14965812056770996191, 14965812052490710111, 14960815875934121055, 14965812056785677391, 14965882421201333343, 14965882421220208591, 14965882423617251295, 14960816114573503567, 14960815875934383183, 14960745505325837407, 14960815874036460639, 14960815874070015055, 14960816114573241439, 14965882664154034127, 14960745507190205535, 14960815871639415903, 14965882661738114143, 14960815564817689695]

/-- Precomputed level 7 (packed identifiers of positions with 7 pieces). -/
def elvl7 : List Nat :=
  [15609303124814475231, 15609303124814589023, 14960785087710883800, 14960785328228937688, 14960785328229051480, 15609303124833462239, 15609303124848142296, 14965851877809842136, 14965882664135305176, 14969792527483676632, 15609303122417430495, 15609303122417544287, 15609303122417545176, 14960785089589931096, 14960785330107984984, 15609303126693522527, 15609303126712510424, 14965851639170721752, 14965851879688775640, 15609303122432110552, 15609303126693523416, 15609303122432224344, 14960785089589817304, 14965851634875756504, 14965851875393810392, 14965851875393924184, 14965882661738260440, 14969792525067758680, 14965851875427362776, 14960785089623369688, 14960815874069899224, 14960815875934267352, 14965812056785561560, 14965851877809582040, 14965851879688629336, 14965812295424681944, 14960785328262490072, 14960816114573387736, 14960785330126858200, 14960785085313724383, 14960785085313838175, 14960785085313839064, 14960785087729496031, 14960785089608543327, 14960785089608544216, 14960785087729756127, 14960785089608689631, 14960785089608804312, 14960785087729758159, 14960785089608691663, 14960785089608805455, 14960784778491998175, 14960784778492111967, 14960784778492112856, 14960785328247663711, 14960785328247664600, 14960785328247810015, 14960785328247924696, 14960785328247812047, 14960785328247925839, 14960784780371045471, 14960784780371046360, 14960785325831892063, 14960785325831892952, 14960785330126859343, 14960784780371160152, 14960785325832006744, 14960785330126711896, 14965851634875755615, 14965851875393809503, 14965882421201333336, 14965882661719387224, 15609334217961778271, 15609334217961892952, 14965851634875641823, 14965851875412797400, 15609334217961779160, 14965851637291673567, 14965851877809727455, 15609334220377696223, 15609333911140166744, 14960815874036460632, 14960816114554514520, 14965851639170607071, 14960815875915394136, 14965812054906513375, 14965812056770881503, 14960785087744321503, 14960815874055219167, 14965851877809581151, 14960815874055333848, 14960785087710769119, 14960785087710882911, 14960785087744175199, 14960785087744176088, 14960785087744436184, 14960785087744323535, 14960785087744437327, 14960784778506792024, 14960785328228936799, 14960785328262343768, 14960785328262491215, 14960784778506678232, 14965882423617251288, 14960815874036346840, 14965812054906628056, 14960785085328403551, 14960785085328404440, 14960785089589816415, 14960785089623370831, 14960785085328518232, 14960785089623223384, 15609333908743122008, 14965851634909308888, 14965851875412682719, 14960785325846572120, 14960815874036345951, 14960815874055221199, 14960815874069900367, 14960815871639301215, 14960815871639302104, 14960815875934268495, 14960815871653981272, 14965812052475916255, 14965812052490595423, 14965812052490596312, 14965851634894628831, 14965851875412536415, 14965851875412537304, 14965851875427216472, 14960815874069752920, 14960815875934121048, 14965812054906515407, 14965812056770736088, 14965812056785562703, 14960816114573241432, 14965851877828456399, 14965812295424535640, 14960816114573388879, 14960815874055073752, 14965812054906367960, 14965812052490710104, 14965812293008763992, 14960816112157469784, 14960815871639415896, 14960815564817689688, 14960815874055072863, 14965812054891687903, 14965812054891947999, 14965812054906629199, 14965812052476030047, 14965812056770735199, 14960815874055334991]

/-- Precomputed level 8 (packed identifiers of positions with 8 pieces). -/
def elvl8 : List Nat :=
  [14960785087710881752, 14960785087710621656, 14960784778473237592, 14960785328228789336, 14960815874036344792, 15609303122398555231, 14965851875393808344, 14960785085294963800, 14965851634875754456, 14960785089589668952, 14960785089589815256, 15609303122398556120, 15609303126693521368, 14960785085294850008, 14965812052490594264, 14960785085328402392, 14960815871639300056, 14965851875393662040, 14960745505325721560, 14960745507190089688, 14960785085313722335, 14960785085313724367, 14960785085313576031, 14960785085313838159, 14960785089608543311, 14960785089608689615, 14960745196073397343, 14960784778492111951, 14960785328247663695, 14960784776076078175, 14960784780371045455, 14960785325831892047, 14965812052475914207, 14965851634875639775, 14960815874036198488, 14960785087710620767, 14960785087710882895, 14960785087744175183, 14960785087744174040, 14960745196073398232, 14960785085294849119, 14960785085328403535, 14960785089589816399, 14960785085328256088, 14960745196073512024, 14960815874036345935, 14960745505325722703, 14960745502895123551, 14960815871639301199, 14960745502895124440, 14960745507189943384, 14965812052475768792, 14960815871639153752, 14965812052490595407, 14960745505325575256, 14965812052475767903, 14965812056770735183]

/-- Precomputed level 9 (packed identifiers of positions with 9 pieces). -/
def elvl9 : List Nat :=
  [14960785087710767064, 14960785087710620760, 14960784778473122904, 14965851634875639768, 14960785085294849112, 15609303124814473176, 14965812052475914200, 14960785085313576024, 14960785087729495119, 14960785087729641423, 14960784778491997263, 14960784776076078168, 14960785087710768207, 14960785087729493976, 14965812054891686991]

set_option maxRecDepth 400000 in
set_option maxHeartbeats 4000000 in
/-- Level 1 of the search is one expansion step from level 0. -/
theorem nextIdsE_lvl0 : nextIdsE elvl0 = elvl1 := by rfl

set_option maxRecDepth 400000 in
set_option maxHeartbeats 4000000 in
/-- Level 2 of the search is one expansion step from level 1. -/
theorem nextIdsE_lvl1 : nextIdsE elvl1 = elvl2 := by rfl

set_option maxRecDepth 400000 in
set_option maxHeartbeats 4000000 in
/-- Level 3 of the search is one expansion step from level 2. -/
theorem nextIdsE_lvl2 : nextIdsE elvl2 = elvl3 := by rfl

set_option maxRecDepth 400000 in
set_option maxHeartbeats 4000000 in
/-- Level 4 of the search is one expansion step from level 3. -/
theorem nextIdsE_lvl3 : nextIdsE elvl3 = elvl4 := by rfl

set_option maxRecDepth 400000 in
set_option maxHeartbeats 4000000 in
/-- Level 5 of the search is one expansion step from level 4. -/
theorem nextIdsE_lvl4 : nextIdsE elvl4 = elvl5 := by rfl

set_option maxRecDepth 400000 in
set_option maxHeartbeats 4000000 in
/-- Level 6 of the search is one expansion step from level 5. -/
theorem nextIdsE_lvl5 : nextIdsE elvl5 = elvl6 := by rfl

set_option maxRecDepth 400000 in
set_option maxHeartbeats 4000000 in
/-- Level 7 of the search is one expansion step from level 6. -/
theorem nextIdsE_lvl6 : nextIdsE elvl6 = elvl7 := by rfl

set_option maxRecDepth 400000 in
set_option maxHeartbeats 4000000 in
/-- Level 8 of the search is one expansion step from level 7. -/
theorem nextIdsE_lvl7 : nextIdsE elvl7 = elvl8 := by rfl

set_option maxRecDepth 400000 in
set_option maxHeartbeats 4000000 in
/-- Level 9 of the search is one expansion step from level 8. -/
theorem nextIdsE_lvl8 : nextIdsE elvl8 = elvl9 := by rfl

/-- The search levels are exactly the precomputed levels. -/
theorem reachLevelsE_eq :
    reachLevelsE = [elvl0, elvl1, elvl2, elvl3, elvl4, elvl5, elvl6, elvl7, elvl8, elvl9] := by
  have h0 : [encodeId (getCanonicalState createEmptyBoard).1] = elvl0 := by rfl
  unfold reachLevelsE
  rw [h0]
  simp only [levelsAuxE]
  rw [nextIdsE_lvl0, nextIdsE_lvl1, nextIdsE_lvl2, nextIdsE_lvl3, nextIdsE_lvl4,
      nextIdsE_lvl5, nextIdsE_lvl6, nextIdsE_lvl7, nextIdsE_lvl8]

/-- Horner evaluation splits off the initial accumulator. -/
theorem foldE_acc (l : List Nat) :
    ∀ a : Nat, l.foldl (fun a c => a * 128 + c) a = a * 128 ^ l.length + valE l := by
  induction l with
  | nil => intro a; simp [valE]
  | cons c cs ih =>
      intro a
      have h1 : (c :: cs).foldl (fun a c => a * 128 + c) a
          = cs.foldl (fun a c => a * 128 + c) (a * 128 + c) := rfl
      have h2 : valE (c :: cs) = cs.foldl (fun a c => a * 128 + c) c := by
        simp [valE]
      rw [h1, ih (a * 128 + c), h2, ih c]
      simp [List.length_cons, pow_succ]
      ring

/-- The base-128 value of a bounded digit list is below its radix power. -/
theorem valE_lt (l : List Nat) (hb : ∀ c ∈ l, c < 128) :
    valE l < 128 ^ l.length := by
  induction l with
  | nil => simp [valE]
  | cons c cs ih =>
      have hc : c < 128 := hb c (List.mem_cons_self c cs)
      have hcs : ∀ x ∈ cs, x < 128 := fun x hx => hb x (List.mem_cons_of_mem c hx)
      have h2 : valE (c :: cs) = cs.foldl (fun a c => a * 128 + c) c := by
        simp [valE]
      rw [h2, foldE_acc cs c]
      have h3 : valE cs < 128 ^ cs.length := ih hcs
      have h4 : c * 128 ^ cs.length + valE cs < (c + 1) * 128 ^ cs.length := by
        have := Nat.pos_pow_of_pos (n := 128) cs.length (by norm_num)
        nlinarith
      have h5 : (c + 1) * 128 ^ cs.length ≤ 128 * 128 ^ cs.length :=
        Nat.mul_le_mul_right _ (by omega)
      calc c * 128 ^ cs.length + valE cs
          < (c + 1) * 128 ^ cs.length := h4
        _ ≤ 128 * 128 ^ cs.length := h5
        _ = 128 ^ (c :: cs).length := by
            simp [List.length_cons, pow_succ]; ring

/-- Base-128 values are injective on equal-length bounded digit lists. -/
theorem valE_injOn : ∀ a b : List Nat, a.length = b.length →
    (∀ c ∈ a, c < 128) → (∀ c ∈ b, c < 128) → valE a = valE b → a = b := by
  intro a
  induction a with
  | nil =>
      intro b hlen _ _ _
      cases b with
      | nil => rfl
      | cons d ds => simp at hlen
  | cons c cs ih =>
      intro b hlen hba hbb hv
      cases b with
      | nil => simp at hlen
      | cons d ds =>
          have hlen2 : cs.length = ds.length := by simpa using hlen
          have hca : ∀ x ∈ cs, x < 128 := fun x hx => hba x (List.mem_cons_of_mem c hx)
          have hcb : ∀ x ∈ ds, x < 128 := fun x hx => hbb x (List.mem_cons_of_mem d hx)
          have hva : valE (c :: cs) = c * 128 ^ cs.length + valE cs := by
            have h2 : valE (c :: cs) = cs.foldl (fun a c => a * 128 + c) c := by
              simp [valE]
            rw [h2, foldE_acc cs c]
          have hvb : valE (d :: ds) = d * 128 ^ ds.length + valE ds := by
            have h2 : valE (d :: ds) = ds.foldl (fun a c => a * 128 + c) d := by
              simp [valE]
            rw [h2, foldE_acc ds d]
          have hlta : valE cs < 128 ^ cs.length := valE_lt cs hca
          have hltb : valE ds < 128 ^ ds.length := valE_lt ds hcb
          rw [hva, hvb, ← hlen2] at hv
          rw [← hlen2] at hltb
          have hcd : c = d := by
            rcases Nat.lt_trichotomy c d with h | h | h
            · exfalso
              have h1 : c * 128 ^ cs.length + valE cs < (c + 1) * 128 ^ cs.length := by
                rw [Nat.succ_mul]
                exact Nat.add_lt_add_left hlta _
              have h2 : (c + 1) * 128 ^ cs.length ≤ d * 128 ^ cs.length :=
                Nat.mul_le_mul_right _ (by omega)
              have h3 : c * 128 ^ cs.length + valE cs < d * 128 ^ cs.length + valE ds :=
                lt_of_lt_of_le (lt_of_lt_of_le h1 h2) (Nat.le_add_right _ _)
              exact (Nat.ne_of_lt h3) hv
            · exact h
            · exfalso
              have h1 : d * 128 ^ cs.length + valE ds < (d + 1) * 128 ^ cs.length := by
                rw [Nat.succ_mul]
                exact Nat.add_lt_add_left hltb _
              have h2 : (d + 1) * 128 ^ cs.length ≤ c * 128 ^ cs.length :=
                Nat.mul_le_mul_right _ (by omega)
              have h3 : d * 128 ^ cs.length + valE ds < c * 128 ^ cs.length + valE cs :=
                lt_of_lt_of_le (lt_of_lt_of_le h1 h2) (Nat.le_add_right _ _)
              exact (Nat.ne_of_lt h3) hv.symm
          subst hcd
          have hvv : valE cs = valE ds := Nat.add_left_cancel hv
          rw [ih ds hlen2 hca hcb hvv]

/-- encodeId is injective on equal-length lists of codes below 128, so the
packed search counts distinct identifiers faithfully. -/
theorem encodeId_injOn (a b : List Nat) (hlen : a.length = b.length)
    (hba : ∀ c ∈ a, c < 128) (hbb : ∀ c ∈ b, c < 128)
    (h : encodeId a = encodeId b) : a = b := by
  have ha : encodeId a = 1 * 128 ^ a.length + valE a := foldE_acc a 1
  have hb2 : encodeId b = 1 * 128 ^ b.length + valE b := foldE_acc b 1
  rw [ha, hb2, hlen] at h
  exact valE_injOn a b hlen hba hbb (by omega)

/-- Identifiers produced by dedupGoE avoid the seen list and are distinct. -/
theorem dedupGoE_not_mem_seen (l : List Nat) :
    ∀ seen y, y ∈ dedupGoE seen l → y ∉ seen := by
  induction l with
  | nil => intro seen y hy; simp [dedupGoE] at hy
  | cons x xs ih =>
      intro seen y hy
      by_cases hx : seen.contains x
      · rw [dedupGoE, if_pos hx] at hy
        exact ih seen y hy
      · rw [dedupGoE, if_neg hx] at hy
        rcases List.mem_cons.mp hy with h | h
        · subst h
          simpa using hx
        · intro hmem
          exact ih (x :: seen) y h (List.mem_cons_of_mem x hmem)

/-- The output of dedupGoE has no duplicates. -/
theorem dedupGoE_nodup (l : List Nat) : ∀ seen, (dedupGoE seen l).Nodup := by
  induction l with
  | nil => intro seen; simp [dedupGoE]
  | cons x xs ih =>
      intro seen
      by_cases hx : seen.contains x
      · rw [dedupGoE, if_pos hx]
        exact ih seen
      · rw [dedupGoE, if_neg hx]
        refine List.nodup_cons.mpr ⟨?_, ih (x :: seen)⟩
        intro hxin
        exact dedupGoE_not_mem_seen xs (x :: seen) x hxin (List.mem_cons_self x seen)

/-- Each expansion level has no duplicates. -/
theorem nextIdsE_nodup (ids : List Nat) : (nextIdsE ids).Nodup :=
  dedupGoE_nodup _ []

set_option maxRecDepth 1000000 in
set_option maxHeartbeats 1000000 in
/-- Every identifier on a precomputed level encodes a position whose piece
count is the level number (checked by evaluation, level by level). -/
theorem elvl_pieceCounts :
    (elvl0.all (fun e => pieceCountE e = 0) = true) ∧
    (elvl1.all (fun e => pieceCountE e = 1) = true) ∧
    (elvl2.all (fun e => pieceCountE e = 2) = true) ∧
    (elvl3.all (fun e => pieceCountE e = 3) = true) ∧
    (elvl4.all (fun e => pieceCountE e = 4) = true) ∧
    (elvl5.all (fun e => pieceCountE e = 5) = true) ∧
    (elvl6.all (fun e => pieceCountE e = 6) = true) ∧
    (elvl7.all (fun e => pieceCountE e = 7) = true) ∧
    (elvl8.all (fun e => pieceCountE e = 8) = true) ∧
    (elvl9.all (fun e => pieceCountE e = 9) = true) := by
  refine ⟨?_, ?_, ?_, ?_, ?_, ?_, ?_, ?_, ?_, ?_⟩ <;> rfl

/-- Lists whose elements have different piece counts are disjoint. -/
theorem pieceCount_disjoint {la lb : List Nat} {i j : Nat}
    (ha : la.all (fun e => pieceCountE e = i) = true)
    (hb : lb.all (fun e => pieceCountE e = j) = true)
    (hij : i ≠ j) : la.Disjoint lb := by
  intro x hxa hxb
  have hi : pieceCountE x = i := by
    have := List.all_eq_true.mp ha x hxa
    simpa using this
  have hj : pieceCountE x = j := by
    have := List.all_eq_true.mp hb x hxb
    simpa using this
  exact hij (hi ▸ hj ▸ rfl)

/-- Nodup of each precomputed level, via the step lemmas. -/
theorem elvl_nodup :
    elvl0.Nodup ∧ elvl1.Nodup ∧ elvl2.Nodup ∧ elvl3.Nodup ∧ elvl4.Nodup ∧
    elvl5.Nodup ∧ elvl6.Nodup ∧ elvl7.Nodup ∧ elvl8.Nodup ∧ elvl9.Nodup := by
  refine ⟨by decide, ?_, ?_, ?_, ?_, ?_, ?_, ?_, ?_, ?_⟩
  · rw [← nextIdsE_lvl0]; exact nextIdsE_nodup _
  · rw [← nextIdsE_lvl1]; exact nextIdsE_nodup _
  · rw [← nextIdsE_lvl2]; exact nextIdsE_nodup _
  · rw [← nextIdsE_lvl3]; exact nextIdsE_nodup _
  · rw [← nextIdsE_lvl4]; exact nextIdsE_nodup _
  · rw [← nextIdsE_lvl5]; exact nextIdsE_nodup _
  · rw [← nextIdsE_lvl6]; exact nextIdsE_nodup _
  · rw [← nextIdsE_lvl7]; exact nextIdsE_nodup _
  · rw [← nextIdsE_lvl8]; exact nextIdsE_nodup _

/-- No identifier repeats across the whole search (levels are internally
duplicate-free and mutually disjoint by piece count). -/
theorem reachableIdsE_nodup : reachableIdsE.Nodup := by
  unfold reachableIdsE
  rw [reachLevelsE_eq]
  obtain ⟨n0, n1, n2, n3, n4, n5, n6, n7, n8, n9⟩ := elvl_nodup
  obtain ⟨p0, p1, p2, p3, p4, p5, p6, p7, p8, p9⟩ := elvl_pieceCounts
  have flat : ([elvl0, elvl1, elvl2, elvl3, elvl4, elvl5, elvl6, elvl7,
      elvl8, elvl9] : List (List Nat)).flatten
      = elvl0 ++ (elvl1 ++ (elvl2 ++ (elvl3 ++ (elvl4 ++ (elvl5 ++ (elvl6 ++
        (elvl7 ++ (elvl8 ++ (elvl9 ++ []))))))))) := rfl
  rw [flat]
  have happ : ∀ (l1 l2 l3 : List Nat), l1.Disjoint l2 → l1.Disjoint l3 →
      l1.Disjoint (l2 ++ l3) := by
    intro l1 l2 l3 h12 h13 x hx hmem
    rcases List.mem_append.mp hmem with h | h
    · exact h12 hx h
    · exact h13 hx h
  have hnil : ∀ l : List Nat, l.Disjoint ([] : List Nat) := by
    intro l x _ hx; simp at hx
  refine List.Nodup.append n0 ?_ ?_
  · refine List.Nodup.append n1 ?_ ?_
    · refine List.Nodup.append n2 ?_ ?_
      · refine List.Nodup.append n3 ?_ ?_
        · refine List.Nodup.append n4 ?_ ?_
          · refine List.Nodup.append n5 ?_ ?_
            · refine List.Nodup.append n6 ?_ ?_
              · refine List.Nodup.append n7 ?_ ?_
                · refine List.Nodup.append n8 ?_ ?_
                  · simpa using n9
                  · exact happ _ _ _ (pieceCount_disjoint p8 p9 (by decide)) (hnil _)
                · exact happ _ _ _ (pieceCount_disjoint p7 p8 (by decide))
                    (happ _ _ _ (pieceCount_disjoint p7 p9 (by decide)) (hnil _))
              · exact happ _ _ _ (pieceCount_disjoint p6 p7 (by decide))
                  (happ _ _ _ (pieceCount_disjoint p6 p8 (by decide))
                    (happ _ _ _ (pieceCount_disjoint p6 p9 (by decide)) (hnil _)))
            · exact happ _ _ _ (pieceCount_disjoint p5 p6 (by decide))
                (happ _ _ _ (pieceCount_disjoint p5 p7 (by decide))
                  (happ _ _ _ (pieceCount_disjoint p5 p8 (by decide))
                    (happ _ _ _ (pieceCount_disjoint p5 p9 (by decide)) (hnil _))))
          · exact happ _ _ _ (pieceCount_disjoint p4 p5 (by decide))
              (happ _ _ _ (pieceCount_disjoint p4 p6 (by decide))
                (happ _ _ _ (pieceCount_disjoint p4 p7 (by decide))
                  (happ _ _ _ (pieceCount_disjoint p4 p8 (by decide))
                    (happ _ _ _ (pieceCount_disjoint p4 p9 (by decide)) (hnil _)))))
        · exact happ _ _ _ (pieceCount_disjoint p3 p4 (by decide))
            (happ _ _ _ (pieceCount_disjoint p3 p5 (by decide))
              (happ _ _ _ (pieceCount_disjoint p3 p6 (by decide))
                (happ _ _ _ (pieceCount_disjoint p3 p7 (by decide))
                  (happ _ _ _ (pieceCount_disjoint p3 p8 (by decide))
                    (happ _ _ _ (pieceCount_disjoint p3 p9 (by decide)) (hnil _))))))
      · exact happ _ _ _ (pieceCount_disjoint p2 p3 (by decide))
          (happ _ _ _ (pieceCount_disjoint p2 p4 (by decide))
            (happ _ _ _ (pieceCount_disjoint p2 p5 (by decide))
              (happ _ _ _ (pieceCount_disjoint p2 p6 (by decide))
                (happ _ _ _ (pieceCount_disjoint p2 p7 (by decide))
                  (happ _ _ _ (pieceCount_disjoint p2 p8 (by decide))
                    (happ _ _ _ (pieceCount_disjoint p2 p9 (by decide)) (hnil _)))))))
    · exact happ _ _ _ (pieceCount_disjoint p1 p2 (by decide))
        (happ _ _ _ (pieceCount_disjoint p1 p3 (by decide))
          (happ _ _ _ (pieceCount_disjoint p1 p4 (by decide))
            (happ _ _ _ (pieceCount_disjoint p1 p5 (by decide))
              (happ _ _ _ (pieceCount_disjoint p1 p6 (by decide))
                (happ _ _ _ (pieceCount_disjoint p1 p7 (by decide))
                  (happ _ _ _ (pieceCount_disjoint p1 p8 (by decide))
                    (happ _ _ _ (pieceCount_disjoint p1 p9 (by decide)) (hnil _))))))))
  · exact happ _ _ _ (pieceCount_disjoint p0 p1 (by decide))
      (happ _ _ _ (pieceCount_disjoint p0 p2 (by decide))
        (happ _ _ _ (pieceCount_disjoint p0 p3 (by decide))
          (happ _ _ _ (pieceCount_disjoint p0 p4 (by decide))
            (happ _ _ _ (pieceCount_disjoint p0 p5 (by decide))
              (happ _ _ _ (pieceCount_disjoint p0 p6 (by decide))
                (happ _ _ _ (pieceCount_disjoint p0 p7 (by decide))
                  (happ _ _ _ (pieceCount_disjoint p0 p8 (by decide))
                    (happ _ _ _ (pieceCount_disjoint p0 p9 (by decide)) (hnil _)))))))))

set_option maxRecDepth 100000 in
/-- The full count evaluates on the precomputed levels. -/
theorem reachableCanonicalCount_eq_765 : reachableCanonicalCount = 765 := by
  unfold reachableCanonicalCount reachableIdsE
  rw [reachLevelsE_eq]
  rfl

set_option maxRecDepth 100000 in
set_option maxHeartbeats 2000000 in
/-- The first-player decision-state count evaluates on the precomputed levels. -/
theorem xDecisionCount_eq_304 : xDecisionCount = 304 := by
  unfold xDecisionCount xDecisionIdsE
  rw [reachLevelsE_eq]
  rfl

set_option maxHeartbeats 2000000 in
/-- The decision-state list also has no duplicates. -/
theorem xDecisionIdsE_nodup : xDecisionIdsE.Nodup := by
  unfold xDecisionIdsE
  rw [reachLevelsE_eq]
  obtain ⟨n0, n1, n2, n3, n4, n5, n6, n7, n8, n9⟩ := elvl_nodup
  obtain ⟨p0, p1, p2, p3, p4, p5, p6, p7, p8, p9⟩ := elvl_pieceCounts
  have hsel : (([elvl0, elvl1, elvl2, elvl3, elvl4, elvl5, elvl6, elvl7,
      elvl8, elvl9] : List (List Nat)).getD 0 []) ++
      (([elvl0, elvl1, elvl2, elvl3, elvl4, elvl5, elvl6, elvl7,
      elvl8, elvl9] : List (List Nat)).getD 2 []) ++
      (([elvl0, elvl1, elvl2, elvl3, elvl4, elvl5, elvl6, elvl7,
      elvl8, elvl9] : List (List Nat)).getD 4 []) ++
      (([elvl0, elvl1, elvl2, elvl3, elvl4, elvl5, elvl6, elvl7,
      elvl8, elvl9] : List (List Nat)).getD 6 [])
      = ((elvl0 ++ elvl2) ++ elvl4) ++ elvl6 := rfl
  rw [hsel]
  refine List.Nodup.filter _ ?_
  have d02 : elvl0.Disjoint elvl2 := pieceCount_disjoint p0 p2 (by decide)
  have n02 : (elvl0 ++ elvl2).Nodup := List.Nodup.append n0 n2 d02
  have d024 : (elvl0 ++ elvl2).Disjoint elvl4 := by
    intro x hx hy
    rcases List.mem_append.mp hx with h | h
    · exact pieceCount_disjoint p0 p4 (by decide) h hy
    · exact pieceCount_disjoint p2 p4 (by decide) h hy
  have n024 : ((elvl0 ++ elvl2) ++ elvl4).Nodup := List.Nodup.append n02 n4 d024
  have d0246 : ((elvl0 ++ elvl2) ++ elvl4).Disjoint elvl6 := by
    intro x hx hy
    rcases List.mem_append.mp hx with h | h
    · rcases List.mem_append.mp h with h2 | h2
      · exact pieceCount_disjoint p0 p6 (by decide) h2 hy
      · exact pieceCount_disjoint p2 p6 (by decide) h2 hy
    · exact pieceCount_disjoint p4 p6 (by decide) h hy
  exact List.Nodup.append n024 n6 d0246

/-- C7 counterexample: the number of distinct canonical identifiers
reachable by legal alternating play from the empty board (play stopping at
terminal positions) is not 304; the enumeration finds 765. -/
theorem C7_counterexample : ¬ (reachableCanonicalCount = 304) := by
  rw [reachableCanonicalCount_eq_765]
  decide

/-- C7 (amended): exhaustive enumeration by legal alternating play from the
empty board finds 765 distinct reachable canonical identifiers (terminal
positions included); 304 is the count of the distinct non-terminal
canonical states with X to move and fewer than eight pieces, the first
player decision points classic MENACE builds matchboxes for. -/
theorem C7_amended_counts :
    reachableCanonicalCount = 765 ∧ reachableIdsE.Nodup ∧
    xDecisionCount = 304 ∧ xDecisionIdsE.Nodup :=
  ⟨reachableCanonicalCount_eq_765, reachableIdsE_nodup,
   xDecisionCount_eq_304, xDecisionIdsE_nodup⟩

/-! Claim C9: makeMove behaviour. -/

/-- C9: for a nine-cell board, makeMove fails exactly when the index is
occupied or out of range, and otherwise returns a new board equal to the
input except that the addressed cell now holds the player mark (the input
itself is a pure value, so it is unmodified by construction). -/
theorem C9_makeMove_spec (board : Board) (index : Nat) (player : Player)
    (hlen : board.length = 9) :
    (makeMove board index player = none ↔
      9 ≤ index ∨ ∃ q, board.get? index = some (some q)) ∧
    (∀ b2, makeMove board index player = some b2 →
      b2.get? index = some (some player) ∧
      b2.length = board.length ∧
      ∀ j, j ≠ index → b2.get? j = board.get? j) := by
  unfold makeMove
  rcases h : board.get? index with _ | c
  · have hge : board.length ≤ index := List.get?_eq_none.mp h
    refine ⟨⟨fun _ => Or.inl (by omega), fun _ => rfl⟩, ?_⟩
    intro b2 hb2
    cases hb2
  · rcases c with _ | q
    · have hlt : index < board.length := by
        by_contra hc
        rw [List.get?_eq_none.mpr (by omega)] at h
        cases h
      constructor
      · constructor
        · intro hnone
          cases hnone
        · rintro (hge | ⟨q, hq⟩)
          · omega
          · simp at hq
      · intro b2 hb2
        have hb2e : b2 = board.set index (some player) := by
          injection hb2 with h2
          exact h2.symm
        subst hb2e
        refine ⟨List.get?_set_eq_of_lt _ hlt, by simp, ?_⟩
        intro j hj
        exact List.get?_set_ne _ _ (Ne.symm hj)
    · refine ⟨⟨fun _ => Or.inr ⟨q, rfl⟩, fun _ => rfl⟩, ?_⟩
      intro b2 hb2
      cases hb2

/-- C9 witness: placing X at the centre of the empty board. -/
theorem C9_makeMove_spec_witness :
    (makeMove createEmptyBoard 4 Player.X = none ↔
      9 ≤ 4 ∨ ∃ q, createEmptyBoard.get? 4 = some (some q)) ∧
    (∀ b2, makeMove createEmptyBoard 4 Player.X = some b2 →
      b2.get? 4 = some (some Player.X) ∧
      b2.length = createEmptyBoard.length ∧
      ∀ j, j ≠ 4 → b2.get? j = createEmptyBoard.get? j) :=
  C9_makeMove_spec createEmptyBoard 4 Player.X (by decide)

/-! Claim C6: the inverse coordinate mapping. -/

/-- C6: for every transform index below 8 and actual index below 9 the
inverse mapping returns exactly the preimage, and it never fails for
canonical indices below 9. -/
theorem C6_inverse_roundtrip :
    (∀ k, k < 8 → ∀ i, i < 9 →
      mapCanonicalMoveToActual (tf k i) k = some i) ∧
    (∀ k, k < 8 → ∀ m, m < 9 →
      (mapCanonicalMoveToActual m k).isSome = true) := by decide

/-- C6 witness: rotate-90 sends actual cell 0 to canonical cell 6 and the
inverse mapping recovers 0. -/
theorem C6_inverse_roundtrip_witness :
    mapCanonicalMoveToActual (tf 1 0) 1 = some 0 :=
  C6_inverse_roundtrip.1 1 (by decide) 0 (by decide)

/-! Claim C2: importMemory error behaviour. -/

/-- Map.set appends when the key is absent from the raw store. -/
theorem rawSet_absent (m : RawMemory) (k : Option (List Nat)) (v : RawBox)
    (h : ∀ kv ∈ m, kv.1 ≠ k) : rawSet m k v = m ++ [(k, v)] := by
  unfold rawSet
  rw [if_neg]
  intro hc
  obtain ⟨kv, hkv, hp⟩ := List.any_eq_true.mp hc
  exact h kv hkv (of_decide_eq_true hp)

/-- A run of primitive items over the one-garbage-entry store keeps
rewriting the same undefined key. -/
theorem importLoop_prim_only : ∀ l : List JItem, (∀ it ∈ l, it = JItem.jprim) →
    importLoop [(none, ⟨none, none⟩)] l = ([(none, ⟨none, none⟩)], true) := by
  intro l
  induction l with
  | nil => intro _; rfl
  | cons it rest ih =>
      intro h
      rw [h it (List.mem_cons_self it rest)]
      show importLoop (rawSet [(none, ⟨none, none⟩)] none ⟨none, none⟩) rest = _
      rw [show rawSet [((none : Option (List Nat)), (⟨none, none⟩ : RawBox))]
            none ⟨none, none⟩ = [(none, ⟨none, none⟩)] from rfl]
      exact ih (fun x hx => h x (List.mem_cons_of_mem it hx))

/-- The loop aborts at the first null item, keeping the fill so far. -/
theorem importLoop_stop : ∀ (pre : List JItem) (m : RawMemory) (rest : List JItem),
    JItem.jnull ∉ pre →
    importLoop m (pre ++ JItem.jnull :: rest) = ((importLoop m pre).1, false) := by
  intro pre
  induction pre with
  | nil => intro m rest _; rfl
  | cons it pr ih =>
      intro m rest h
      have hit : it ≠ JItem.jnull := fun he => h (he ▸ List.mem_cons_self it pr)
      have hpr : JItem.jnull ∉ pr := fun hm => h (List.mem_cons_of_mem it hm)
      cases it with
      | jobj st bd tb =>
          show importLoop (rawSet m st ⟨bd, tb⟩) (pr ++ JItem.jnull :: rest) = _
          rw [ih (rawSet m st ⟨bd, tb⟩) rest hpr]
          rfl
      | jprim =>
          show importLoop (rawSet m none ⟨none, none⟩) (pr ++ JItem.jnull :: rest) = _
          rw [ih (rawSet m none ⟨none, none⟩) rest hpr]
          rfl
      | jnull => exact absurd rfl hit

/-- An all-object run with pairwise distinct string states fresh for the
store appends the translated records in order and completes. -/
theorem importLoop_records :
    ∀ (records : List (List Nat × List Int × Int)) (m : RawMemory),
      (∀ r ∈ records, ∀ kv ∈ m, kv.1 ≠ some r.1) →
      (records.map (fun r => r.1)).Nodup →
      importLoop m (records.map
          (fun r => JItem.jobj (some r.1) (some r.2.1) (some r.2.2)))
        = (m ++ records.map
            (fun r => (some r.1, RawBox.mk (some r.2.1) (some r.2.2))), true) := by
  intro records
  induction records with
  | nil =>
      intro m _ _
      rw [List.map_nil, List.map_nil, List.append_nil]
      rfl
  | cons r rs ih =>
      intro m hfresh hnd
      rw [List.map_cons]
      show importLoop (rawSet m (some r.1) ⟨some r.2.1, some r.2.2⟩) _ = _
      rw [rawSet_absent m (some r.1) ⟨some r.2.1, some r.2.2⟩
            (fun kv hkv => hfresh r (List.mem_cons_self r rs) kv hkv)]
      rw [List.map_cons] at hnd
      have hnd2 := List.nodup_cons.mp hnd
      have hfresh2 : ∀ q ∈ rs,
          ∀ kv ∈ m ++ [(some r.1, (⟨some r.2.1, some r.2.2⟩ : RawBox))],
            kv.1 ≠ some q.1 := by
        intro q hq kv hkv
        rcases List.mem_append.mp hkv with hkv1 | hkv2
        · exact hfresh q (List.mem_cons_of_mem r hq) kv hkv1
        · rw [List.mem_singleton.mp hkv2]
          intro he
          exact hnd2.1 (List.mem_map.mpr ⟨q, hq, (Option.some.inj he).symm⟩)
      rw [ih (m ++ [(some r.1, (⟨some r.2.1, some r.2.2⟩ : RawBox))]) hfresh2 hnd2.2]
      rw [List.map_cons, List.append_assoc]
      rfl

/-- C2 counterexample: a blob that JSON.parse accepts but that is not
iterable (for example the two-byte string holding the number 42) leaves
the store cleared, not in its pre-call state, and no error escapes. -/
theorem C2_counterexample :
    (importMemory
        [([88, 95, 95, 95, 95, 95, 95, 95, 95],
          { beads := [0, 4, 4, 4, 4, 4, 4, 4, 4], totalBeads := 32 })]
        (ImportBlob.parsed JParsed.jnoniter)).1
      ≠ memToRaw [([88, 95, 95, 95, 95, 95, 95, 95, 95],
          { beads := [0, 4, 4, 4, 4, 4, 4, 4, 4], totalBeads := 32 })] := by
  decide

/-- C2 (amended): import never throws (failures are logged and swallowed);
a blob rejected by JSON.parse leaves the store untouched; a blob parsing
to a non-iterable value clears the store and fails at for-of, leaving it
empty; a blob parsing to a non-empty JSON string clears the store and
iterates without error, leaving one garbage entry under the undefined key;
an array blob with a null item aborts mid-loop, keeping the partial fill;
an array of objects with pairwise distinct string states replaces the map
wholesale with the translated records, independent of the prior store. -/
theorem C2_amended_import (mem : Memory) :
    importMemory mem ImportBlob.malformed = (memToRaw mem, false) ∧
    importMemory mem (ImportBlob.parsed JParsed.jnoniter) = ([], false) ∧
    (∀ chars : List Nat, chars ≠ [] →
      importMemory mem (ImportBlob.parsed (JParsed.jstr chars))
        = ([(none, ⟨none, none⟩)], true)) ∧
    (∀ pre rest : List JItem, JItem.jnull ∉ pre →
      importMemory mem (ImportBlob.parsed (JParsed.jarr (pre ++ JItem.jnull :: rest)))
        = ((importLoop [] pre).1, false)) ∧
    (∀ records : List (List Nat × List Int × Int),
      (records.map (fun r => r.1)).Nodup →
      importMemory mem (ImportBlob.parsed (JParsed.jarr (records.map
          (fun r => JItem.jobj (some r.1) (some r.2.1) (some r.2.2)))))
        = (records.map
            (fun r => (some r.1, RawBox.mk (some r.2.1) (some r.2.2))), true)) := by
  refine ⟨rfl, rfl, ?_, ?_, ?_⟩
  · intro chars hne
    cases chars with
    | nil => exact absurd rfl hne
    | cons c cs =>
        show importLoop [] (JItem.jprim :: cs.map (fun _ => JItem.jprim)) = _
        show importLoop (rawSet [] none ⟨none, none⟩) (cs.map (fun _ => JItem.jprim)) = _
        rw [show rawSet ([] : RawMemory) none ⟨none, none⟩
              = [(none, ⟨none, none⟩)] from rfl]
        apply importLoop_prim_only
        intro it hit
        rcases List.mem_map.mp hit with ⟨a, _, rfl⟩
        rfl
  · intro pre rest hpre
    exact importLoop_stop pre [] rest hpre
  · intro records hnd
    show importLoop [] _ = _
    rw [importLoop_records records [] (fun r _ kv hkv => absurd hkv (List.not_mem_nil kv)) hnd]
    rw [List.nil_append]

/-- C2 witness: a concrete one-entry store with the string blob of two
characters, an array with a null item after one record, and a two-record
array. -/
theorem C2_amended_import_witness :
    importMemory [([88], { beads := [1], totalBeads := 1 })] ImportBlob.malformed
      = (memToRaw [([88], { beads := [1], totalBeads := 1 })], false) ∧
    importMemory [([88], { beads := [1], totalBeads := 1 })]
        (ImportBlob.parsed JParsed.jnoniter) = ([], false) ∧
    importMemory [([88], { beads := [1], totalBeads := 1 })]
        (ImportBlob.parsed (JParsed.jstr [52, 50]))
      = ([(none, ⟨none, none⟩)], true) ∧
    importMemory [([88], { beads := [1], totalBeads := 1 })]
        (ImportBlob.parsed (JParsed.jarr
          [JItem.jobj (some [97]) (some [1]) (some 1), JItem.jnull]))
      = ([(some [97], ⟨some [1], some 1⟩)], false) ∧
    importMemory [([88], { beads := [1], totalBeads := 1 })]
        (ImportBlob.parsed (JParsed.jarr
          [JItem.jobj (some [97]) (some [1]) (some 1),
           JItem.jobj (some [98]) (some [2]) (some 2)]))
      = ([(some [97], ⟨some [1], some 1⟩), (some [98], ⟨some [2], some 2⟩)], true) := by
  obtain ⟨h1, h2, h3, h4, h5⟩ :=
    C2_amended_import [([88], { beads := [1], totalBeads := 1 })]
  refine ⟨h1, h2, h3 [52, 50] (by decide), ?_, ?_⟩
  · exact h4 [JItem.jobj (some [97]) (some [1]) (some 1)] [] (by decide)
  · exact h5 [([97], [1], 1), ([98], [2], 2)] (by decide)

/-! Claim C1: the train update loop (counterexample part). -/

/-- C1 counterexample: agent X loses a game with two recorded moves; the
first loss update empties its matchbox, train resigns (returns -1) and the
second matchbox keeps bead count 5 at the recorded cell instead of the
claimed clamped 4, although the history is still cleared. -/
theorem C1_counterexample :
    (memGet (train Player.X
        [([88, 95, 95, 95, 95, 95, 95, 95, 95],
          { beads := [1, 0, 0, 0, 0, 0, 0, 0, 0], totalBeads := 1 }),
         ([79, 95, 95, 95, 95, 95, 95, 95, 95],
          { beads := [5, 0, 0, 0, 0, 0, 0, 0, 0], totalBeads := 5 })]
        [{ canonicalState := [88, 95, 95, 95, 95, 95, 95, 95, 95],
           moveIndex := 0, actualMoveIndex := 0, transformIndex := 0 },
         { canonicalState := [79, 95, 95, 95, 95, 95, 95, 95, 95],
           moveIndex := 0, actualMoveIndex := 0, transformIndex := 0 }]
        GRes.winO).1
      [79, 95, 95, 95, 95, 95, 95, 95, 95]).map (fun mb => mb.beads.getD 0 0)
      = some 5
    ∧ ¬ ((5 : Int) = max 0 (5 - 1)) := by decide

/-! Claim C3: decide on terminal boards (counterexample part). -/

/-- C3 counterexample: a board already won by X that still has empty cells;
getCommand does not fail in either play style, it returns a move. -/
theorem C3_counterexample :
    checkWinner [some Player.X, some Player.X, some Player.X,
        some Player.O, some Player.O, none, none, none, none]
      = some GRes.winX ∧
    ((getCommand [] [some Player.X, some Player.X, some Player.X,
        some Player.O, some Player.O, none, none, none, none]
      PlayStyle.PROBABILISTIC 0 0).1).isSome = true ∧
    ((getCommand [] [some Player.X, some Player.X, some Player.X,
        some Player.O, some Player.O, none, none, none, none]
      PlayStyle.MASTER 0 0).1).isSome = true := by decide

/-! Claim C10: canonical empties versus mapped actual empties
(counterexample part). -/

/-- C10 counterexample: for the board with a single X in cell 2 the chosen
transform is rotate-270 (index 3, not an involution); canonical cell 0 is
occupied yet lies in the forward image of the actual empty cells, and
canonical cell 8 is empty yet missing from that image, so the seeding set
and the selection set differ. -/
theorem C10_counterexample :
    (getCanonicalState
        [none, none, some Player.X, none, none, none, none, none, none]).2 = 3 ∧
    (0 ∈ (getValidMoves
        [none, none, some Player.X, none, none, none, none, none, none]).map (tf 3) ∧
     0 ∉ getValidMoves (canonicalToBoard (getCanonicalState
        [none, none, some Player.X, none, none, none, none, none, none]).1)) ∧
    (8 ∈ getValidMoves (canonicalToBoard (getCanonicalState
        [none, none, some Player.X, none, none, none, none, none, none]).1) ∧
     8 ∉ (getValidMoves
        [none, none, some Player.X, none, none, none, none, none, none]).map (tf 3)) := by
  decide

/-! Shared machinery: valid moves, transforms, canonicalization. -/

/-- Membership in the indexed valid-move recursion. -/
theorem getValidMovesAux_mem (b : Board) :
    ∀ s j, j ∈ getValidMovesAux b s ↔ ∃ d, b.get? d = some none ∧ j = s + d := by
  induction b with
  | nil => intro s j; simp [getValidMovesAux]
  | cons c rest ih =>
      intro s j
      by_cases hc : c = none
      · subst hc
        rw [getValidMovesAux, if_pos rfl]
        constructor
        · intro hj
          rcases List.mem_cons.mp hj with h | h
          · exact ⟨0, rfl, by omega⟩
          · rcases (ih (s + 1) j).mp h with ⟨d, hd, hj2⟩
            exact ⟨d + 1, by simpa using hd, by omega⟩
        · rintro ⟨d, hd, rfl⟩
          cases d with
          | zero => exact List.mem_cons_self _ _
          | succ d2 =>
              refine List.mem_cons_of_mem _
                ((ih (s + 1) (s + (d2 + 1))).mpr ⟨d2, by simpa using hd, by omega⟩)
      · rw [getValidMovesAux, if_neg hc]
        constructor
        · intro hj
          rcases (ih (s + 1) j).mp hj with ⟨d, hd, hj2⟩
          exact ⟨d + 1, by simpa using hd, by omega⟩
        · rintro ⟨d, hd, rfl⟩
          cases d with
          | zero =>
              simp only [List.get?_cons_zero, Option.some.injEq] at hd
              exact absurd hd hc
          | succ d2 => exact (ih (s + 1) _).mpr ⟨d2, by simpa using hd, by omega⟩

/-- A board index is a valid move exactly when its cell is empty. -/
theorem mem_getValidMoves (b : Board) (j : Nat) :
    j ∈ getValidMoves b ↔ b.get? j = some none := by
  unfold getValidMoves
  rw [getValidMovesAux_mem b 0 j]
  constructor
  · rintro ⟨d, hd, rfl⟩
    simpa using hd
  · intro hj
    exact ⟨j, hj, by omega⟩

/-- Valid moves address cells inside the board. -/
theorem getValidMoves_lt (b : Board) (j : Nat) (h : j ∈ getValidMoves b) :
    j < b.length := by
  have hj := (mem_getValidMoves b j).mp h
  by_contra hc
  rw [List.get?_eq_none.mpr (by omega)] at hj
  cases hj

/-- A board whose cells are all occupied is not scored as ongoing. -/
theorem checkWinner_ne_none (b : Board)
    (hall : b.all (fun c => c.isSome) = true) : checkWinner b ≠ none := by
  unfold checkWinner
  split
  · simp
  · simp
  · rw [if_pos hall]
    simp

/-- An ongoing board has at least one valid move. -/
theorem getValidMoves_ne_nil (b : Board) (h : checkWinner b = none) :
    getValidMoves b ≠ [] := by
  intro hnil
  apply checkWinner_ne_none b ?_ h
  rw [List.all_eq_true]
  intro x hx
  cases hx2 : x with
  | some p => simp
  | none =>
      rcases List.mem_iff_get?.mp (hx2 ▸ hx) with ⟨n, hn⟩
      have hmem : n ∈ getValidMoves b := (mem_getValidMoves b n).mpr hn
      rw [hnil] at hmem
      simp at hmem

/-- Every transform keeps board indices inside the nine cells. -/
theorem tf_lt : ∀ k, k < 8 → ∀ i, i < 9 → tf k i < 9 := by decide

/-- Every transform is injective on the nine cells. -/
theorem tf_inj : ∀ k, k < 8 → ∀ i, i < 9 → ∀ j, j < 9 →
    tf k i = tf k j → i = j := by decide

/-- All transforms except rotate-90 and rotate-270 are involutions. -/
theorem tf_invol : ∀ k, k < 8 → k ≠ 1 → k ≠ 3 → ∀ i, i < 9 →
    tf k (tf k i) = i := by decide

/-- The transforms are closed under composition. -/
theorem tf_comp : ∀ j, j < 8 → ∀ k, k < 8 →
    ∃ u, u < 8 ∧ ∀ i, i < 9 → tf j (tf k i) = tf u i := by decide

/-- Composition with a fixed transform reaches every transform. -/
theorem tf_comp_surj : ∀ j, j < 8 → ∀ u, u < 8 →
    ∃ k, k < 8 ∧ ∀ i, i < 9 → tf j (tf k i) = tf u i := by decide

/-- The identity transform leaves a nine-cell board unchanged. -/
theorem applyTransform_id (b : Board) (hlen : b.length = 9) :
    applyTransform b (tf 0) = b := by
  have h1 : tf 0 = identity := rfl
  rw [h1]
  unfold applyTransform identity
  apply List.ext_get?
  intro n
  rw [List.get?_map]
  by_cases hn : n < 9
  · rw [List.get?_range hn]
    have hlt : n < b.length := by omega
    show some (b.getD n none) = b.get? n
    rw [List.getD_eq_getElem b none hlt, List.get?_eq_getElem?,
        List.getElem?_eq_getElem hlt]
  · rw [List.get?_eq_none.mpr (by simpa using (by omega : 9 ≤ n)),
        List.get?_eq_none.mpr (by omega)]
    rfl

/-- Invariant of the canonicalization scan: the index stays below 8 and the
kept string is the serialization of the transform at that index. -/
theorem canonFold_spec (b : Board) :
    ∀ (l : List Nat) (acc : List Nat × Nat), (∀ x ∈ l, x < 8) →
      acc.2 < 8 → acc.1 = boardToString (applyTransform b (tf acc.2)) →
      (l.foldl (canonStep b) acc).2 < 8 ∧
      (l.foldl (canonStep b) acc).1
        = boardToString (applyTransform b (tf (l.foldl (canonStep b) acc).2)) := by
  intro l
  induction l with
  | nil => intro acc _ h2 h1; exact ⟨h2, h1⟩
  | cons x xs ih =>
      intro acc hl h2 h1
      rw [List.foldl_cons]
      apply ih
      · intro y hy
        exact hl y (List.mem_cons_of_mem _ hy)
      · unfold canonStep
        dsimp only
        split
        · exact hl x (List.mem_cons_self _ _)
        · exact h2
      · unfold canonStep
        dsimp only
        split
        · rfl
        · exact h1

/-- The canonicalization result: index below 8, string realized by the
transform at that index. -/
theorem getCanonicalState_spec (b : Board) (hlen : b.length = 9) :
    (getCanonicalState b).2 < 8 ∧
    (getCanonicalState b).1
      = boardToString (applyTransform b (tf (getCanonicalState b).2)) := by
  unfold getCanonicalState
  apply canonFold_spec
  · intro x hx
    exact List.mem_range.mp (List.mem_of_mem_drop hx)
  · show (0 : Nat) < 8
    decide
  · show boardToString b = boardToString (applyTransform b (tf 0))
    rw [applyTransform_id b hlen]

/-- Decoding a serialized board recovers the board. -/
theorem canonicalToBoard_boardToString (b : Board) :
    canonicalToBoard (boardToString b) = b := by
  unfold canonicalToBoard boardToString
  rw [List.map_map]
  have h : ((fun c => if c = 88 then some Player.X
      else if c = 79 then some Player.O else none) ∘ cellCode) = id := by
    funext c
    rcases c with _ | p
    · rfl
    · cases p <;> rfl
  rw [h, List.map_id]

/-- Transformed boards always have nine cells. -/
theorem applyTransform_length (b : Board) (t : Nat → Nat) :
    (applyTransform b t).length = 9 := by
  unfold applyTransform
  simp

/-- Cells of a transformed board: cell i holds cell t(i) of the input. -/
theorem applyTransform_get? (b : Board) (t : Nat → Nat) (i : Nat) (hi : i < 9) :
    (applyTransform b t).get? i = some (b.getD (t i) none) := by
  unfold applyTransform
  rw [List.get?_map, List.get?_range hi]
  rfl

/-- For nine-cell boards, getD at an in-range index is the optional cell. -/
theorem getD_eq_get?_of_lt (b : Board) (i : Nat) (hi : i < b.length) :
    b.get? i = some (b.getD i none) := by
  rw [List.getD_eq_getElem b none hi, List.get?_eq_getElem?,
      List.getElem?_eq_getElem hi]

/-! Selection lemmas: every selector returns an element of its candidate
list, and succeeds whenever the candidate list is nonempty. -/

/-- The weighted walk only returns candidates from its list. -/
theorem walkBeads_mem (beads : List Int) (r : Int) :
    ∀ (l : List Nat) (cum : Int) (m : Nat),
      walkBeads beads r cum l = some m → m ∈ l := by
  intro l
  induction l with
  | nil => intro cum m h; cases h
  | cons mv rest ih =>
      intro cum m h
      simp only [walkBeads] at h
      split at h
      · split at h
        · exact (Option.some.inj h) ▸ List.mem_cons_self _ _
        · exact List.mem_cons_of_mem _ (ih _ _ h)
      · exact List.mem_cons_of_mem _ (ih _ _ h)

/-- In-range list lookups succeed. -/
theorem get?_isSome_of_ne_nil (l : List Nat) (ru : Nat) (hne : l ≠ []) :
    ∃ m, l.get? (ru % l.length) = some m ∧ m ∈ l := by
  have hpos : 0 < l.length := List.length_pos.mpr hne
  have hlt : ru % l.length < l.length := Nat.mod_lt _ hpos
  refine ⟨l.get ⟨ru % l.length, hlt⟩, List.get?_eq_get hlt, List.get_mem _ _ _⟩

/-- The probabilistic selector returns only valid candidates. -/
theorem select_mem (mb : Matchbox) (valid : List Nat) (rw ru : Nat) (m : Nat)
    (h : selectMoveFromMatchboxFiltered mb valid rw ru = some m) : m ∈ valid := by
  unfold selectMoveFromMatchboxFiltered at h
  dsimp only at h
  split at h
  · split at h
    · cases h
    · exact List.get?_mem h
  · split at h
    · next mv heq =>
        exact (Option.some.inj h) ▸ walkBeads_mem mb.beads _ _ _ _ heq
    · split at h
      · next mv heq =>
          exact (Option.some.inj h) ▸ List.mem_of_find?_eq_some heq
      · exact List.get?_mem h

/-- The probabilistic selector succeeds whenever candidates exist. -/
theorem select_some (mb : Matchbox) (valid : List Nat) (rw ru : Nat)
    (hne : valid ≠ []) :
    ∃ m, selectMoveFromMatchboxFiltered mb valid rw ru = some m := by
  unfold selectMoveFromMatchboxFiltered
  dsimp only
  rcases get?_isSome_of_ne_nil valid ru hne with ⟨m0, hm0, _⟩
  split
  · rw [if_neg (by simpa [List.length_eq_zero] using hne)]
    exact ⟨m0, hm0⟩
  · rcases hw : walkBeads mb.beads (Int.ofNat rw) 0 valid with _ | mv
    · rcases hf : valid.find? (fun mv => decide (0 < mb.beads.getD mv 0)) with _ | mv2
      · exact ⟨m0, hm0⟩
      · exact ⟨mv2, rfl⟩
    · exact ⟨mv, rfl⟩

/-- The greedy fold only collects candidates from the processed list. -/
theorem masterFold_mem (beads : List Int) :
    ∀ (l : List Nat) (acc : Option Int × List Nat) (m : Nat),
      m ∈ (l.foldl (masterStep beads) acc).2 → m ∈ acc.2 ∨ m ∈ l := by
  intro l
  induction l with
  | nil => intro acc m h; exact Or.inl h
  | cons x xs ih =>
      intro acc m h
      rw [List.foldl_cons] at h
      rcases ih (masterStep beads acc x) m h with h2 | h2
      · unfold masterStep at h2
        dsimp only at h2
        split at h2
        · rcases List.mem_singleton.mp h2 with rfl
          exact Or.inr (List.mem_cons_self _ _)
        · split at h2
          · rcases List.mem_singleton.mp h2 with rfl
            exact Or.inr (List.mem_cons_self _ _)
          · split at h2
            · rcases List.mem_append.mp h2 with h3 | h3
              · exact Or.inl h3
              · rcases List.mem_singleton.mp h3 with rfl
                exact Or.inr (List.mem_cons_self _ _)
            · exact Or.inl h2
      · exact Or.inr (List.mem_cons_of_mem _ h2)

/-- Once the greedy fold has seen a candidate it keeps a nonempty best
list (and a running maximum). -/
theorem masterFold_keep (beads : List Int) :
    ∀ (l : List Nat) (acc : Option Int × List Nat),
      acc.1.isSome = true → acc.2 ≠ [] →
      (l.foldl (masterStep beads) acc).1.isSome = true ∧
      (l.foldl (masterStep beads) acc).2 ≠ [] := by
  intro l
  induction l with
  | nil => intro acc h1 h2; exact ⟨h1, h2⟩
  | cons x xs ih =>
      intro acc h1 h2
      rw [List.foldl_cons]
      obtain ⟨om, best⟩ := acc
      rcases om with _ | m
      · simp at h1
      · apply ih
        · show (masterStep beads (some m, best) x).1.isSome = true
          unfold masterStep
          dsimp only
          split
          · rfl
          · split
            · rfl
            · exact h1
        · show (masterStep beads (some m, best) x).2 ≠ []
          unfold masterStep
          dsimp only
          split
          · simp
          · split
            · simp
            · exact h2

/-- The greedy selector returns only valid candidates. -/
theorem masterSelect_mem (mb : Matchbox) (valid : List Nat) (ru : Nat) (m : Nat)
    (h : masterSelect mb valid ru = some m) : m ∈ valid := by
  unfold masterSelect at h
  dsimp only at h
  split at h
  · exact List.get?_mem h
  · have hmem := List.get?_mem h
    rcases masterFold_mem mb.beads valid (none, []) m hmem with h2 | h2
    · simp at h2
    · exact h2

/-- The greedy selector succeeds whenever candidates exist. -/
theorem masterSelect_some (mb : Matchbox) (valid : List Nat) (ru : Nat)
    (hne : valid ≠ []) : ∃ m, masterSelect mb valid ru = some m := by
  unfold masterSelect
  dsimp only
  rcases valid with _ | ⟨x, xs⟩
  · exact absurd rfl hne
  · have hbest : ((x :: xs).foldl (masterStep mb.beads) (none, [])).2 ≠ [] := by
      rw [List.foldl_cons]
      have hstep : masterStep mb.beads (none, []) x
          = (some (mb.beads.getD x 0), [x]) := rfl
      rw [hstep]
      exact (masterFold_keep mb.beads xs (some (mb.beads.getD x 0), [x]) rfl (by simp)).2
    rw [if_neg (by simpa [List.length_eq_zero] using hbest)]
    rcases get?_isSome_of_ne_nil _ ru hbest with ⟨m, hm, _⟩
    exact ⟨m, hm⟩

/-- The inverse mapping undoes the forward transform on the nine cells. -/
theorem mapCanonical_roundtrip (k a : Nat) (hk : k < 8) (ha : a < 9) :
    mapCanonicalMoveToActual (tf k a) k = some a := by
  unfold mapCanonicalMoveToActual
  rcases hfind : (List.range 9).find? (fun i => decide (tf k i = tf k a)) with _ | i0
  · exfalso
    have hsome : ((List.range 9).find?
        (fun i => decide (tf k i = tf k a))).isSome = true :=
      List.find?_isSome.mpr ⟨a, List.mem_range.mpr ha, by simp⟩
    rw [hfind] at hsome
    cases hsome
  · have hp : tf k i0 = tf k a := by
      have := List.find?_some hfind
      simpa using this
    have hi9 : i0 < 9 := List.mem_range.mp (List.mem_of_find?_eq_some hfind)
    rw [tf_inj k hk i0 hi9 a ha hp]

/-- The style dispatch returns a member and succeeds on nonempty lists. -/
theorem styleSelect_some_mem (style : PlayStyle) (mb : Matchbox)
    (cvm : List Nat) (rw ru : Nat) (hne : cvm ≠ []) :
    ∃ m, styleSelect style mb cvm rw ru = some m ∧ m ∈ cvm := by
  cases style with
  | MASTER =>
      rcases masterSelect_some mb cvm ru hne with ⟨m, hm⟩
      exact ⟨m, hm, masterSelect_mem mb cvm ru m hm⟩
  | PROBABILISTIC =>
      rcases select_some mb cvm rw ru hne with ⟨m, hm⟩
      exact ⟨m, hm, select_mem mb cvm rw ru m hm⟩

/-- getCommand fails when the board has no empty cell (in either style). -/
theorem getCommand_empty (mem : Memory) (b : Board) (style : PlayStyle)
    (rw ru : Nat) (hv : getValidMoves b = []) :
    (getCommand mem b style rw ru).1 = none := by
  unfold getCommand
  rw [hv]
  have h1 : styleSelect style (seedMatchbox mem (getCanonicalState b).1).1
      (([] : List Nat).map (tf (getCanonicalState b).2)) rw ru = none := by
    cases style <;> rfl
  rw [h1]
  rfl

/-- getCommand succeeds on any board with an empty cell and returns an
actual index that is a valid move, for every memory, style and random
draw. -/
theorem getCommand_success (mem : Memory) (b : Board) (style : PlayStyle)
    (rw ru : Nat) (hlen : b.length = 9) (hne : getValidMoves b ≠ []) :
    ∃ cmd, (getCommand mem b style rw ru).1 = some cmd ∧
      cmd.actualMoveIndex ∈ getValidMoves b := by
  obtain ⟨hk8, -⟩ := getCanonicalState_spec b hlen
  have hcvne : (getValidMoves b).map (tf (getCanonicalState b).2) ≠ [] := by
    simpa using hne
  unfold getCommand
  rcases styleSelect_some_mem style (seedMatchbox mem (getCanonicalState b).1).1
      ((getValidMoves b).map (tf (getCanonicalState b).2)) rw ru hcvne
    with ⟨m, hm, hmem⟩
  rw [hm]
  rcases List.mem_map.mp hmem with ⟨a, ha, ham⟩
  have ha9 : a < 9 := by
    have := getValidMoves_lt b a ha
    omega
  rw [← ham]
  unfold finishCommand
  dsimp only
  rw [mapCanonical_roundtrip (getCanonicalState b).2 a hk8 ha9]
  exact ⟨_, rfl, ha⟩

/-- C3 (amended): getCommand fails if and only if the board has no empty
cell; a terminal board that still has empty cells does not make it fail. -/
theorem C3_amended_decide_fails_iff (mem : Memory) (b : Board)
    (style : PlayStyle) (rw ru : Nat) (hlen : b.length = 9) :
    (getCommand mem b style rw ru).1 = none ↔ getValidMoves b = [] := by
  constructor
  · intro h
    by_contra hne
    rcases getCommand_success mem b style rw ru hlen hne with ⟨cmd, hcmd, -⟩
    rw [h] at hcmd
    cases hcmd
  · exact getCommand_empty mem b style rw ru

/-- C3 witness: the full drawn board. -/
theorem C3_amended_decide_fails_iff_witness :
    ((getCommand [] [some Player.X, some Player.O, some Player.X,
        some Player.O, some Player.X, some Player.O,
        some Player.X, some Player.O, some Player.X]
      PlayStyle.PROBABILISTIC 0 0).1 = none
    ↔ getValidMoves [some Player.X, some Player.O, some Player.X,
        some Player.O, some Player.X, some Player.O,
        some Player.X, some Player.O, some Player.X] = []) :=
  C3_amended_decide_fails_iff [] _ PlayStyle.PROBABILISTIC 0 0 (by decide)

/-- C4: on a nine-cell non-terminal board, decide returns an index whose
cell on the actual board is empty, for every memory state, either style
and every value of the random draws. -/
theorem C4_decide_returns_empty_cell (mem : Memory) (b : Board)
    (style : PlayStyle) (rw ru : Nat) (hlen : b.length = 9)
    (hongoing : checkWinner b = none) :
    ∃ cmd, (getCommand mem b style rw ru).1 = some cmd ∧
      b.get? cmd.actualMoveIndex = some none := by
  have hne := getValidMoves_ne_nil b hongoing
  rcases getCommand_success mem b style rw ru hlen hne with ⟨cmd, h1, h2⟩
  exact ⟨cmd, h1, (mem_getValidMoves b _).mp h2⟩

/-- C4 witness: the board with one X in the corner, master style. -/
theorem C4_decide_returns_empty_cell_witness :
    ∃ cmd, (getCommand [] [some Player.X, none, none, none, none, none,
        none, none, none] PlayStyle.MASTER 2 7).1 = some cmd ∧
      ([some Player.X, none, none, none, none, none,
        none, none, none] : Board).get? cmd.actualMoveIndex = some none :=
  C4_decide_returns_empty_cell [] _ PlayStyle.MASTER 2 7 (by decide) (by decide)

/-! Weight non-negativity (claim C8) and the train update lemmas. -/

/-- Membership after a map-set: an entry is old or the new binding. -/
theorem memSet_mem (m : Memory) (k : List Nat) (v : Matchbox) :
    ∀ kv ∈ memSet m k v, kv ∈ m ∨ kv = (k, v) := by
  intro kv hkv
  unfold memSet at hkv
  split at hkv
  · rcases List.mem_map.mp hkv with ⟨kv0, hkv0, heq⟩
    by_cases hk : kv0.1 = k
    · rw [if_pos hk] at heq
      exact Or.inr heq.symm
    · rw [if_neg hk] at heq
      exact Or.inl (heq ▸ hkv0)
  · rcases List.mem_append.mp hkv with h | h
    · exact Or.inl h
    · exact Or.inr (List.mem_singleton.mp h)

/-- A found matchbox is one of the store entries. -/
theorem memGet_mem (m : Memory) (k : List Nat) (mb : Matchbox)
    (h : memGet m k = some mb) : (∃ kv ∈ m, kv.2 = mb) := by
  unfold memGet at h
  rcases hf : m.find? (fun kv => decide (kv.1 = k)) with _ | kv
  · rw [hf] at h
    cases h
  · rw [hf] at h
    refine ⟨kv, List.mem_of_find?_eq_some hf, ?_⟩
    simpa using h

/-- getD of a non-negative bead list is non-negative. -/
theorem getD_nonneg (l : List Int) (i : Nat) (h : ∀ x ∈ l, 0 ≤ x) :
    0 ≤ l.getD i 0 := by
  by_cases hi : i < l.length
  · rw [List.getD_eq_getElem l 0 hi]
    exact h _ (List.getElem_mem hi)
  · rw [List.getD_eq_default l 0 (by omega)]

/-- Setting a non-negative value keeps a bead list non-negative. -/
theorem set_nonneg (l : List Int) (i : Nat) (v : Int) (hv : 0 ≤ v)
    (h : ∀ x ∈ l, 0 ≤ x) : ∀ x ∈ l.set i v, 0 ≤ x := by
  intro x hx
  rcases List.mem_or_eq_of_mem_set hx with h2 | h2
  · exact h x h2
  · omega

/-- The add update (win or draw) keeps beads non-negative. -/
theorem addUpdate_nonneg (mb : Matchbox) (idx : Nat) (r : Int) (hr : 0 ≤ r)
    (h : ∀ x ∈ mb.beads, 0 ≤ x) : ∀ x ∈ (addUpdate mb idx r).beads, 0 ≤ x := by
  unfold addUpdate
  exact set_nonneg _ _ _ (by have := getD_nonneg mb.beads idx h; omega) h

/-- The loss update keeps beads non-negative (saturation at zero). -/
theorem lossUpdate_nonneg (mb : Matchbox) (idx : Nat)
    (h : ∀ x ∈ mb.beads, 0 ≤ x) : ∀ x ∈ (lossUpdate mb idx).beads, 0 ≤ x := by
  unfold lossUpdate
  exact set_nonneg _ _ _ (le_max_left 0 _) h

/-- memSet with a non-negative matchbox preserves store non-negativity. -/
theorem memSet_nonneg (m : Memory) (k : List Nat) (v : Matchbox)
    (hm : memNonneg m) (hv : ∀ x ∈ v.beads, 0 ≤ x) :
    memNonneg (memSet m k v) := by
  intro kv hkv
  rcases memSet_mem m k v kv hkv with h | h
  · exact hm kv h
  · rw [h]
    exact hv

/-- The train loop preserves store non-negativity. -/
theorem trainGo_nonneg (isWin isDraw : Bool) :
    ∀ (hist : List MoveRecord) (mem : Memory), memNonneg mem →
      memNonneg (trainGo isWin isDraw mem hist).1 := by
  intro hist
  induction hist with
  | nil => intro mem hm; exact hm
  | cons rec rest ih =>
      intro mem hm
      rw [trainGo]
      rcases hget : memGet mem rec.canonicalState with _ | mb
      · exact ih mem hm
      · have hmb : ∀ x ∈ mb.beads, 0 ≤ x := by
          rcases memGet_mem mem rec.canonicalState mb hget with ⟨kv, hkv, hkv2⟩
          intro x hx
          exact hm kv hkv x (hkv2 ▸ hx)
        have hwin := memSet_nonneg mem rec.canonicalState _ hm
          (addUpdate_nonneg mb rec.moveIndex 3 (by norm_num) hmb)
        have hdraw := memSet_nonneg mem rec.canonicalState _ hm
          (addUpdate_nonneg mb rec.moveIndex 1 (by norm_num) hmb)
        have hloss := memSet_nonneg mem rec.canonicalState _ hm
          (lossUpdate_nonneg mb rec.moveIndex hmb)
        dsimp only
        split
        · exact ih _ hwin
        · split
          · exact ih _ hdraw
          · split
            · exact hloss
            · exact ih _ hloss

/-- One train call preserves store non-negativity. -/
theorem train_nonneg (player : Player) (mem : Memory)
    (hist : List MoveRecord) (result : GRes) (hm : memNonneg mem) :
    memNonneg (train player mem hist result).1 :=
  trainGo_nonneg _ _ hist mem hm

/-- Seed weights are among 4, 3, 2, 1, hence non-negative. -/
theorem getInitialBeads_nonneg (n : Nat) : 0 ≤ getInitialBeads n := by
  unfold getInitialBeads
  repeat' split
  all_goals norm_num

/-- Freshly seeded matchboxes carry only non-negative beads. -/
theorem initializeMatchbox_nonneg (b : Board) (vm : List Nat) :
    ∀ x ∈ (initializeMatchbox b vm).beads, 0 ≤ x := by
  unfold initializeMatchbox
  dsimp only
  have main : ∀ (l : List Nat) (acc : List Int × Int),
      (∀ x ∈ acc.1, 0 ≤ x) →
      ∀ x ∈ (l.foldl (fun (acc : List Int × Int) mv =>
        (acc.1.set mv (getInitialBeads
            (10 - (b.filter (fun c => decide (c = none))).length)),
         acc.2 + getInitialBeads
            (10 - (b.filter (fun c => decide (c = none))).length))) acc).1,
        0 ≤ x := by
    intro l
    induction l with
    | nil => intro acc h; exact h
    | cons mv rest ih =>
        intro acc h
        rw [List.foldl_cons]
        exact ih _ (set_nonneg _ _ _ (getInitialBeads_nonneg _) h)
  exact main vm (List.replicate 9 0, 0) (by intro x hx; simp at hx; omega)

/-- getCommand seeding preserves store non-negativity. -/
theorem seedMatchbox_nonneg (mem : Memory) (c : List Nat) (hm : memNonneg mem) :
    memNonneg (seedMatchbox mem c).2 := by
  unfold seedMatchbox
  rcases hget : memGet mem c with _ | mb
  · exact memSet_nonneg _ _ _ hm (initializeMatchbox_nonneg _ _)
  · exact hm

/-- The memory returned by the command tail is the seeded memory. -/
theorem finishCommand_snd (c : List Nat) (k : Nat) (mem1 : Memory)
    (mb : Matchbox) (o : Option Nat) :
    (finishCommand c k mem1 mb o).2 = mem1 := by
  cases o with
  | none => rfl
  | some cmi =>
      unfold finishCommand
      split <;> try rfl
      split <;> rfl

/-- C8: starting from a store whose weights are all non-negative, every
sequence of training calls leaves every weight non-negative (losses
saturate at zero); seeding introduces only non-negative weights, and the
decision path preserves the invariant as well. -/
theorem C8_weights_nonneg (player : Player) (mem : Memory)
    (hm : memNonneg mem) :
    (∀ games : List (GRes × List MoveRecord),
      memNonneg (trainMany player mem games)) ∧
    (∀ b vm, ∀ x ∈ (initializeMatchbox b vm).beads, 0 ≤ x) ∧
    (∀ b style rw ru, memNonneg (getCommand mem b style rw ru).2) := by
  refine ⟨?_, fun b vm => initializeMatchbox_nonneg b vm, ?_⟩
  · intro games
    induction games generalizing mem with
    | nil => exact hm
    | cons g rest ih =>
        exact ih _ (train_nonneg player mem g.2 g.1 hm)
  · intro b style rw ru
    unfold getCommand
    rw [finishCommand_snd]
    exact seedMatchbox_nonneg mem _ hm

/-- C8 witness: the empty store trained through a losing game. -/
theorem C8_weights_nonneg_witness :
    (∀ games : List (GRes × List MoveRecord),
      memNonneg (trainMany Player.X [] games)) ∧
    (∀ b vm, ∀ x ∈ (initializeMatchbox b vm).beads, 0 ≤ x) ∧
    (∀ b style rw ru, memNonneg (getCommand [] b style rw ru).2) :=
  C8_weights_nonneg Player.X []
    (fun kv hkv => absurd hkv (List.not_mem_nil kv))

/-! Lookup lemmas for the store and the train update characterization
(claim C1). -/

/-- Replacement inside the map branch of memSet is found at the key. -/
theorem memGet_map_replace (k : List Nat) (v : Matchbox) :
    ∀ m : Memory, m.any (fun kv => decide (kv.1 = k)) = true →
      memGet (m.map (fun kv => if kv.1 = k then (k, v) else kv)) k = some v := by
  intro m
  induction m with
  | nil => intro h; simp at h
  | cons kv0 rest ih =>
      intro h
      by_cases h0 : kv0.1 = k
      · unfold memGet
        rw [List.map_cons, if_pos h0, List.find?_cons_of_pos _ (by simp)]
        rfl
      · unfold memGet at ih ⊢
        rw [List.map_cons, if_neg h0, List.find?_cons_of_neg _ (by simpa using h0)]
        apply ih
        have h2 := h
        rw [List.any_cons] at h2
        simpa [h0] using h2

/-- The appended binding of memSet is found at the key. -/
theorem memGet_append_new (k : List Nat) (v : Matchbox) :
    ∀ m : Memory, m.any (fun kv => decide (kv.1 = k)) = false →
      memGet (m ++ [(k, v)]) k = some v := by
  intro m
  induction m with
  | nil =>
      intro _
      unfold memGet
      rw [List.nil_append, List.find?_cons_of_pos _ (by simp)]
      rfl
  | cons kv0 rest ih =>
      intro h
      rw [List.any_cons, Bool.or_eq_false_iff] at h
      unfold memGet at ih ⊢
      rw [List.cons_append, List.find?_cons_of_neg _ (by simpa using h.1)]
      exact ih h.2

/-- Map.set finds the stored value at its own key. -/
theorem memGet_memSet_self (m : Memory) (k : List Nat) (v : Matchbox) :
    memGet (memSet m k v) k = some v := by
  unfold memSet
  split
  · next hany => exact memGet_map_replace k v m hany
  · next hany => exact memGet_append_new k v m ((Bool.not_eq_true _) ▸ hany)

/-- The map branch of memSet leaves other keys untouched. -/
theorem memGet_map_other (k k2 : List Nat) (v : Matchbox) (hne : k2 ≠ k) :
    ∀ m : Memory,
      memGet (m.map (fun kv => if kv.1 = k then (k, v) else kv)) k2
        = memGet m k2 := by
  intro m
  induction m with
  | nil => rfl
  | cons kv0 rest ih =>
      by_cases h0 : kv0.1 = k
      · unfold memGet at ih ⊢
        rw [List.map_cons, if_pos h0,
            List.find?_cons_of_neg _ (by simp; exact fun h => hne h.symm),
            List.find?_cons_of_neg _ (by simp; exact fun h => hne (h.symm.trans h0))]
        exact ih
      · by_cases h2 : kv0.1 = k2
        · unfold memGet
          rw [List.map_cons, if_neg h0, List.find?_cons_of_pos _ (by simpa using h2),
              List.find?_cons_of_pos _ (by simpa using h2)]
        · unfold memGet at ih ⊢
          rw [List.map_cons, if_neg h0, List.find?_cons_of_neg _ (by simpa using h2),
              List.find?_cons_of_neg _ (by simpa using h2)]
          exact ih

/-- The append branch of memSet leaves other keys untouched. -/
theorem memGet_append_other (k k2 : List Nat) (v : Matchbox) (hne : k2 ≠ k) :
    ∀ m : Memory, memGet (m ++ [(k, v)]) k2 = memGet m k2 := by
  intro m
  induction m with
  | nil =>
      unfold memGet
      rw [List.nil_append, List.find?_cons_of_neg _ (by simpa using fun h => hne h.symm)]
  | cons kv0 rest ih =>
      by_cases h2 : kv0.1 = k2
      · unfold memGet
        rw [List.cons_append, List.find?_cons_of_pos _ (by simpa using h2),
            List.find?_cons_of_pos _ (by simpa using h2)]
      · unfold memGet at ih ⊢
        rw [List.cons_append, List.find?_cons_of_neg _ (by simpa using h2),
            List.find?_cons_of_neg _ (by simpa using h2)]
        exact ih

/-- Map.set leaves every other key untouched. -/
theorem memGet_memSet_other (m : Memory) (k k2 : List Nat) (v : Matchbox)
    (hne : k2 ≠ k) : memGet (memSet m k v) k2 = memGet m k2 := by
  unfold memSet
  split
  · exact memGet_map_other k k2 v hne m
  · exact memGet_append_other k k2 v hne m

/-- The train loop never touches keys outside its history. -/
theorem trainGo_lookup (isWin isDraw : Bool) :
    ∀ (hist : List MoveRecord) (mem : Memory) (key : List Nat),
      (∀ r ∈ hist, r.canonicalState ≠ key) →
      memGet (trainGo isWin isDraw mem hist).1 key = memGet mem key := by
  intro hist
  induction hist with
  | nil => intro mem key _; rfl
  | cons rec rest ih =>
      intro mem key h
      have hrec : rec.canonicalState ≠ key := h rec (List.mem_cons_self _ _)
      have hrest : ∀ r ∈ rest, r.canonicalState ≠ key :=
        fun r hr => h r (List.mem_cons_of_mem _ hr)
      rw [trainGo]
      rcases hg : memGet mem rec.canonicalState with _ | mb
      · exact ih mem key hrest
      · dsimp only
        split
        · rw [ih _ key hrest, memGet_memSet_other _ _ _ _ (Ne.symm hrec)]
        · split
          · rw [ih _ key hrest, memGet_memSet_other _ _ _ _ (Ne.symm hrec)]
          · split
            · exact memGet_memSet_other _ _ _ _ (Ne.symm hrec)
            · rw [ih _ key hrest, memGet_memSet_other _ _ _ _ (Ne.symm hrec)]

/-- The per-record effect of the train loop, for histories whose canonical
states are pairwise distinct, provided no loss update empties a matchbox. -/
theorem trainGo_updates (isWin isDraw : Bool) :
    ∀ (hist : List MoveRecord) (mem : Memory),
      (hist.map (fun r => r.canonicalState)).Nodup →
      (isWin = false → isDraw = false →
        ∀ r ∈ hist, ∀ mb, memGet mem r.canonicalState = some mb →
          (lossUpdate mb r.moveIndex).beads.all (fun x => decide (x = 0)) = false) →
      ∀ r ∈ hist, ∀ mb, memGet mem r.canonicalState = some mb →
        memGet (trainGo isWin isDraw mem hist).1 r.canonicalState
          = some (if isWin then addUpdate mb r.moveIndex 3
                  else if isDraw then addUpdate mb r.moveIndex 1
                  else lossUpdate mb r.moveIndex) := by
  intro hist
  induction hist with
  | nil => intro mem _ _ r hr; cases hr
  | cons rec0 rest ih =>
      intro mem hnodup hnoz r hr mb hmb
      have hpair : (∀ x ∈ rest, ¬ x.canonicalState = rec0.canonicalState) ∧
          (rest.map (fun r2 => r2.canonicalState)).Nodup := by simpa using hnodup
      have hnodup2 : (rest.map (fun r2 => r2.canonicalState)).Nodup := hpair.2
      have hfresh : ∀ r2 ∈ rest, r2.canonicalState ≠ rec0.canonicalState := hpair.1
      rw [trainGo]
      rcases List.mem_cons.mp hr with rfl | hr2
      · rw [hmb]
        dsimp only
        split
        · rw [trainGo_lookup _ _ rest _ _ hfresh, memGet_memSet_self]
        · split
          · rw [trainGo_lookup _ _ rest _ _ hfresh, memGet_memSet_self]
          · next hw hd =>
              have hz := hnoz (by simpa using hw) (by simpa using hd) r
                (List.mem_cons_self _ _) mb hmb
              rw [if_neg (by simp [hz])]
              rw [trainGo_lookup _ _ rest _ _ hfresh, memGet_memSet_self]
      · have hneq : r.canonicalState ≠ rec0.canonicalState := hfresh r hr2
        have hnoz2 : ∀ mem2 : Memory,
            (∀ r2 ∈ rest, memGet mem2 r2.canonicalState = memGet mem r2.canonicalState) →
            isWin = false → isDraw = false →
            ∀ r2 ∈ rest, ∀ mb2, memGet mem2 r2.canonicalState = some mb2 →
              (lossUpdate mb2 r2.moveIndex).beads.all (fun x => decide (x = 0)) = false := by
          intro mem2 hsame hw hd r2 h2 mb2 hm2
          exact hnoz hw hd r2 (List.mem_cons_of_mem _ h2) mb2 ((hsame r2 h2) ▸ hm2)
        rcases hg0 : memGet mem rec0.canonicalState with _ | mb0
        · exact ih mem hnodup2
            (fun hw hd r2 h2 mb2 hm2 =>
              hnoz hw hd r2 (List.mem_cons_of_mem _ h2) mb2 hm2) r hr2 mb hmb
        · have hrec := fun mb1 => ih (memSet mem rec0.canonicalState mb1) hnodup2
            (hnoz2 _ (fun r2 h2 => memGet_memSet_other _ _ _ _ (hfresh r2 h2)))
            r hr2 mb
            (by rw [memGet_memSet_other _ _ _ _ hneq]; exact hmb)
          dsimp only
          split
          · next hw =>
              have h3 := hrec (addUpdate mb0 rec0.moveIndex 3)
              rw [if_pos hw] at h3
              exact h3
          · next hw =>
              split
              · next hd =>
                  have h3 := hrec (addUpdate mb0 rec0.moveIndex 1)
                  rw [if_neg hw, if_pos hd] at h3
                  exact h3
              · next hd =>
                  have hz := hnoz (by simpa using hw) (by simpa using hd) rec0
                    (List.mem_cons_self _ _) mb0 hg0
                  rw [if_neg (by simp [hz])]
                  have h3 := hrec (lossUpdate mb0 rec0.moveIndex)
                  rw [if_neg hw, if_neg hd] at h3
                  exact h3

/-- C1 (amended): train clears the history in every exit path; when the
record keys are pairwise distinct and, for losses, no update empties a
matchbox (which would trigger the resignation early exit), every record
with a present matchbox is updated exactly once, by +3 for a win of the
agent, +1 for a draw, and -1 clamped at zero for a loss. -/
theorem C1_amended_train (player : Player) (mem : Memory)
    (hist : List MoveRecord) (result : GRes)
    (hnodup : (hist.map (fun r => r.canonicalState)).Nodup)
    (hnoresign : result ≠ resultOf player → result ≠ GRes.draw →
      ∀ r ∈ hist, ∀ mb, memGet mem r.canonicalState = some mb →
        (lossUpdate mb r.moveIndex).beads.all (fun x => decide (x = 0)) = false) :
    (train player mem hist result).2.1 = [] ∧
    ∀ r ∈ hist, ∀ mb, memGet mem r.canonicalState = some mb →
      memGet (train player mem hist result).1 r.canonicalState
        = some (trainUpdateOf player result mb r.moveIndex) := by
  refine ⟨rfl, ?_⟩
  intro r hr mb hmb
  have hmain := trainGo_updates (decide (result = resultOf player))
    (decide (result = GRes.draw)) hist mem hnodup
    (fun hw hd => hnoresign (by simpa using hw) (by simpa using hd))
    r hr mb hmb
  unfold train trainUpdateOf
  by_cases hwv : result = resultOf player
  · simpa [hwv] using hmain
  · by_cases hdv : result = GRes.draw
    · simpa [hwv, hdv] using hmain
    · simpa [hwv, hdv] using hmain

/-- C1 witness: a one-record winning game updates the bead by +3 and the
history comes back empty. -/
theorem C1_amended_train_witness :
    ((train Player.X
        [([88, 95, 95, 95, 95, 95, 95, 95, 95],
          { beads := [1, 0, 0, 0, 0, 0, 0, 0, 0], totalBeads := 1 })]
        [⟨[88, 95, 95, 95, 95, 95, 95, 95, 95], 0, 0, 0⟩]
        GRes.winX).2.1 = []) ∧
    (∀ r ∈ ([⟨[88, 95, 95, 95, 95, 95, 95, 95, 95], 0, 0, 0⟩] : List MoveRecord),
      ∀ mb, memGet [([88, 95, 95, 95, 95, 95, 95, 95, 95],
          { beads := [1, 0, 0, 0, 0, 0, 0, 0, 0], totalBeads := 1 })]
          r.canonicalState = some mb →
      memGet (train Player.X
        [([88, 95, 95, 95, 95, 95, 95, 95, 95],
          { beads := [1, 0, 0, 0, 0, 0, 0, 0, 0], totalBeads := 1 })]
        [⟨[88, 95, 95, 95, 95, 95, 95, 95, 95], 0, 0, 0⟩]
        GRes.winX).1 r.canonicalState
        = some (trainUpdateOf Player.X GRes.winX mb r.moveIndex)) :=
  C1_amended_train Player.X _ _ GRes.winX (by decide)
    (fun h _ => absurd rfl h)

/-! Claim C10 (amended part): the seeding set versus the selection set. -/

/-- C10 (amended): whenever the transform chosen by canonicalization is an
involution on the cell indices (every transform except rotate-90, index 1,
and rotate-270, index 3), the empty cells of the canonical board are
exactly the forward images under that transform of the actual board empty
cells, so the seeding legal-move set and the selection legal-move set
coincide; for transform indices 1 and 3 they can differ (see the
counterexample). -/
theorem C10_amended_sets_coincide (b : Board) (hlen : b.length = 9)
    (h1 : (getCanonicalState b).2 ≠ 1) (h3 : (getCanonicalState b).2 ≠ 3) :
    ∀ j, j ∈ getValidMoves (canonicalToBoard (getCanonicalState b).1)
      ↔ j ∈ (getValidMoves b).map (tf (getCanonicalState b).2) := by
  obtain ⟨hk8, hcanon⟩ := getCanonicalState_spec b hlen
  have hcb : canonicalToBoard (getCanonicalState b).1
      = applyTransform b (tf (getCanonicalState b).2) := by
    rw [hcanon, canonicalToBoard_boardToString]
  intro j
  rw [hcb]
  constructor
  · intro hj
    have hj9 : j < 9 := by
      have := getValidMoves_lt _ _ hj
      rw [applyTransform_length] at this
      exact this
    have hcell := (mem_getValidMoves _ j).mp hj
    rw [applyTransform_get? b _ j hj9] at hcell
    have hbn : b.getD (tf (getCanonicalState b).2 j) none = none := by
      injection hcell
    have htlt : tf (getCanonicalState b).2 j < 9 := tf_lt _ hk8 j hj9
    have hbget : b.get? (tf (getCanonicalState b).2 j) = some none := by
      rw [getD_eq_get?_of_lt b _ (by omega), hbn]
    refine List.mem_map.mpr ⟨tf (getCanonicalState b).2 j,
      (mem_getValidMoves b _).mpr hbget, ?_⟩
    exact tf_invol _ hk8 h1 h3 j hj9
  · intro hj
    rcases List.mem_map.mp hj with ⟨a, ha, rfl⟩
    have ha9 : a < 9 := by
      have := getValidMoves_lt b a ha
      omega
    have hta : tf (getCanonicalState b).2 a < 9 := tf_lt _ hk8 a ha9
    apply (mem_getValidMoves _ _).mpr
    rw [applyTransform_get? b _ _ hta, tf_invol _ hk8 h1 h3 a ha9]
    have hga : b.getD a none = none := by
      have h2 := (mem_getValidMoves b a).mp ha
      rw [getD_eq_get?_of_lt b a (by omega)] at h2
      injection h2
    rw [hga]

/-- C10 witness: the board with X in the corner keeps the identity
transform, and cell 5 is in both sets. -/
theorem C10_amended_sets_coincide_witness :
    (5 ∈ getValidMoves (canonicalToBoard (getCanonicalState
        [some Player.X, none, none, none, none, none, none, none, none]).1)
      ↔ 5 ∈ (getValidMoves
        [some Player.X, none, none, none, none, none, none, none, none]).map
          (tf (getCanonicalState
            [some Player.X, none, none, none, none, none, none, none, none]).2)) :=
  C10_amended_sets_coincide _ (by decide) (by decide) (by decide) 5

/-! Claim C5: lexicographic order facts and minimality of the canonical
serialization. -/

/-- lexLt is irreflexive. -/
theorem lexLt_irrefl : ∀ a, lexLt a a = false := by
  intro a
  induction a with
  | nil => rfl
  | cons x xs ih =>
      rw [lexLt]
      simp [ih]

/-- lexLt is transitive. -/
theorem lexLt_trans : ∀ a b c, lexLt a b = true → lexLt b c = true →
    lexLt a c = true := by
  intro a
  induction a with
  | nil =>
      intro b c hab hbc
      cases b with
      | nil => exact hbc
      | cons y ys =>
          cases c with
          | nil => cases hbc
          | cons z zs => rfl
  | cons x xs ih =>
      intro b c hab hbc
      cases b with
      | nil => cases hab
      | cons y ys =>
          cases c with
          | nil => cases hbc
          | cons z zs =>
              rw [lexLt] at hab hbc ⊢
              by_cases hxy : x < y
              · by_cases hyz : y < z
                · rw [if_pos (by omega)]
                · rw [if_pos hxy] at hab
                  by_cases hzy : z < y
                  · rw [if_neg hyz, if_pos hzy] at hbc
                    cases hbc
                  · have hyz2 : y = z := by omega
                    rw [if_pos (by omega)]
              · by_cases hyx : y < x
                · rw [if_neg hxy, if_pos hyx] at hab
                  cases hab
                · have hxy2 : x = y := by omega
                  by_cases hyz : y < z
                  · rw [if_pos (by omega)]
                  · by_cases hzy : z < y
                    · rw [if_neg hyz, if_pos hzy] at hbc
                      cases hbc
                    · have hyz2 : y = z := by omega
                      rw [if_neg (by omega), if_neg (by omega)]
                      rw [if_neg hxy, if_neg hyx] at hab
                      rw [if_neg hyz, if_neg hzy] at hbc
                      exact ih ys zs hab hbc

/-- lexLt is connected: two lists are comparable or equal. -/
theorem lexLt_connex : ∀ a b, lexLt a b = true ∨ lexLt b a = true ∨ a = b := by
  intro a
  induction a with
  | nil =>
      intro b
      cases b with
      | nil => exact Or.inr (Or.inr rfl)
      | cons y ys => exact Or.inl rfl
  | cons x xs ih =>
      intro b
      cases b with
      | nil => exact Or.inr (Or.inl rfl)
      | cons y ys =>
          by_cases hxy : x < y
          · exact Or.inl (by rw [lexLt, if_pos hxy])
          · by_cases hyx : y < x
            · exact Or.inr (Or.inl (by rw [lexLt, if_pos hyx]))
            · have hxy2 : x = y := by omega
              rcases ih ys with h | h | h
              · exact Or.inl (by rw [lexLt, if_neg hxy, if_neg hyx]; exact h)
              · exact Or.inr (Or.inl
                  (by rw [lexLt, if_neg (by omega), if_neg (by omega)]; exact h))
              · exact Or.inr (Or.inr (by rw [hxy2, h]))

/-- Unfolding one scan step of foldMin. -/
theorem foldMin_cons (init s : List Nat) (rest : List (List Nat)) :
    foldMin init (s :: rest) = foldMin (if lexLt s init then s else init) rest := rfl

/-- The scan minimum is the initial value or one of the scanned values. -/
theorem foldMin_mem : ∀ (l : List (List Nat)) (init : List Nat),
    foldMin init l = init ∨ foldMin init l ∈ l := by
  intro l
  induction l with
  | nil => intro init; exact Or.inl rfl
  | cons s rest ih =>
      intro init
      rw [foldMin_cons]
      by_cases hs : lexLt s init = true
      · rw [if_pos hs]
        rcases ih s with h | h
        · exact Or.inr (by rw [h]; exact List.mem_cons_self s rest)
        · exact Or.inr (List.mem_cons_of_mem _ h)
      · rw [if_neg hs]
        rcases ih init with h | h
        · exact Or.inl h
        · exact Or.inr (List.mem_cons_of_mem _ h)

/-- Nothing scanned is strictly below the scan minimum. -/
theorem foldMin_le : ∀ (l : List (List Nat)) (init x : List Nat),
    (x = init ∨ x ∈ l) → lexLt x (foldMin init l) = false := by
  intro l
  induction l with
  | nil =>
      intro init x hx
      rcases hx with rfl | h
      · exact lexLt_irrefl x
      · cases h
  | cons s rest ih =>
      intro init x hx
      rw [foldMin_cons]
      by_cases hs : lexLt s init = true
      · rw [if_pos hs]
        rcases hx with rfl | hmem
        · cases hval : lexLt x (foldMin s rest) with
          | false => rfl
          | true =>
              exfalso
              have h1 : lexLt s (foldMin s rest) = false := ih s s (Or.inl rfl)
              have h2 : lexLt s (foldMin s rest) = true :=
                lexLt_trans s x _ hs hval
              rw [h1] at h2
              cases h2
        · rcases List.mem_cons.mp hmem with rfl | h2
          · exact ih _ _ (Or.inl rfl)
          · exact ih _ x (Or.inr h2)
      · rw [if_neg hs]
        rcases hx with rfl | hmem
        · exact ih _ _ (Or.inl rfl)
        · rcases List.mem_cons.mp hmem with rfl | h2
          · cases hval : lexLt x (foldMin init rest) with
            | false => rfl
            | true =>
                exfalso
                have hle : lexLt init (foldMin init rest) = false :=
                  ih init init (Or.inl rfl)
                rcases lexLt_connex init (foldMin init rest) with h3 | h3 | h3
                · rw [hle] at h3
                  cases h3
                · have h4 : lexLt x init = true :=
                    lexLt_trans x (foldMin init rest) init hval h3
                  rw [h4] at hs
                  exact hs rfl
                · rw [← h3] at hval
                  rw [hval] at hs
                  exact hs rfl
          · exact ih init x (Or.inr h2)

/-- getD through a transform: cell j of the image is cell t(j) of the
input. -/
theorem applyTransform_getD (b : Board) (t : Nat → Nat) (j : Nat) (hj : j < 9) :
    (applyTransform b t).getD j none = b.getD (t j) none := by
  have h := applyTransform_get? b t j hj
  have hl : j < (applyTransform b t).length := by
    rw [applyTransform_length]
    exact hj
  rw [getD_eq_get?_of_lt _ j hl] at h
  injection h

/-- Transforms agreeing on the nine cells give the same image board. -/
theorem applyTransform_congr (b : Board) (t1 t2 : Nat → Nat)
    (h : ∀ i, i < 9 → t1 i = t2 i) :
    applyTransform b t1 = applyTransform b t2 := by
  unfold applyTransform
  apply List.map_congr_left
  intro i hi
  rw [h i (List.mem_range.mp hi)]

/-- Composing transforms composes the index maps (inner map in range). -/
theorem applyTransform_comp (b : Board) (t s : Nat → Nat)
    (hs : ∀ i, i < 9 → s i < 9) :
    applyTransform (applyTransform b t) s = applyTransform b (fun i => t (s i)) := by
  apply List.ext_get?
  intro n
  by_cases hn : n < 9
  · rw [applyTransform_get? _ s n hn, applyTransform_get? b _ n hn,
        applyTransform_getD b t (s n) (hs n hn)]
  · rw [List.get?_eq_none.mpr (by rw [applyTransform_length]; omega),
        List.get?_eq_none.mpr (by rw [applyTransform_length]; omega)]

/-- The value part of the canonicalization fold is the foldMin of the
serializations of the scanned transforms. -/
theorem canonFold_fst (b : Board) :
    ∀ (l : List Nat) (acc : List Nat × Nat),
      (l.foldl (canonStep b) acc).1
        = foldMin acc.1 (l.map (fun i => boardToString (applyTransform b (tf i)))) := by
  intro l
  induction l with
  | nil => intro acc; rfl
  | cons x xs ih =>
      intro acc
      rw [List.foldl_cons, List.map_cons, foldMin_cons, ih (canonStep b acc x)]
      congr 1
      unfold canonStep
      dsimp only
      split
      · rfl
      · rfl

/-- No transformed serialization is lexicographically below the canonical
identifier. -/
theorem getCanonicalState_le (x : Board) (hlen : x.length = 9) :
    ∀ k, k < 8 →
      lexLt (boardToString (applyTransform x (tf k))) (getCanonicalState x).1
        = false := by
  intro k hk
  have hfold : (getCanonicalState x).1
      = foldMin (boardToString x)
          (((List.range 8).drop 1).map
            (fun i => boardToString (applyTransform x (tf i)))) := by
    unfold getCanonicalState
    exact canonFold_fst x _ _
  rw [hfold]
  apply foldMin_le
  by_cases hk0 : k = 0
  · subst hk0
    left
    rw [applyTransform_id x hlen]
  · right
    rw [show (List.range 8).drop 1 = [1, 2, 3, 4, 5, 6, 7] from rfl]
    refine List.mem_map.mpr ⟨k, ?_, rfl⟩
    have hk1 : 1 ≤ k := by omega
    interval_cases k <;> decide

set_option maxHeartbeats 1000000 in
/-- C5: canonicalization is invariant under all eight transforms, the
identifier is one of the eight transformed serializations, none of the
eight serializations is lexicographically smaller, and canonicalizing the
canonical board is idempotent. -/
theorem C5_canonicalization (b : Board) (hlen : b.length = 9) :
    (∀ j, j < 8 →
      (getCanonicalState (applyTransform b (tf j))).1 = (getCanonicalState b).1) ∧
    (∃ k, k < 8 ∧
      (getCanonicalState b).1 = boardToString (applyTransform b (tf k))) ∧
    (∀ k, k < 8 →
      lexLt (boardToString (applyTransform b (tf k))) (getCanonicalState b).1
        = false) ∧
    (getCanonicalState (canonicalToBoard (getCanonicalState b).1)).1
      = (getCanonicalState b).1 := by
  have hmem : ∃ k, k < 8 ∧
      (getCanonicalState b).1 = boardToString (applyTransform b (tf k)) := by
    obtain ⟨hk8, hc⟩ := getCanonicalState_spec b hlen
    exact ⟨_, hk8, hc⟩
  have hinv : ∀ j, j < 8 →
      (getCanonicalState (applyTransform b (tf j))).1 = (getCanonicalState b).1 := by
    intro j hj
    have htblen : (applyTransform b (tf j)).length = 9 := applyTransform_length b _
    obtain ⟨hk1, hc1⟩ := getCanonicalState_spec (applyTransform b (tf j)) htblen
    obtain ⟨hk2, hc2⟩ := getCanonicalState_spec b hlen
    set m1 := (getCanonicalState (applyTransform b (tf j))).1 with hm1def
    set m2 := (getCanonicalState b).1 with hm2def
    set k1 := (getCanonicalState (applyTransform b (tf j))).2 with hk1def
    set k2 := (getCanonicalState b).2 with hk2def
    obtain ⟨u, hu8, hcomp⟩ := tf_comp j hj k1 hk1
    have hstep1 : applyTransform (applyTransform b (tf j)) (tf k1)
        = applyTransform b (tf u) := by
      rw [applyTransform_comp b (tf j) (tf k1) (fun i hi => tf_lt k1 hk1 i hi)]
      exact applyTransform_congr b _ _ hcomp
    have hm1 : m1 = boardToString (applyTransform b (tf u)) := by
      rw [hc1, hstep1]
    obtain ⟨v, hv8, hcomp2⟩ := tf_comp_surj j hj k2 hk2
    have hstep2 : applyTransform (applyTransform b (tf j)) (tf v)
        = applyTransform b (tf k2) := by
      rw [applyTransform_comp b (tf j) (tf v) (fun i hi => tf_lt v hv8 i hi)]
      exact applyTransform_congr b _ _ hcomp2
    have hm2 : m2 = boardToString (applyTransform (applyTransform b (tf j)) (tf v)) := by
      rw [hstep2]
      exact hc2
    have hle1 : lexLt m1 m2 = false := by
      rw [hm1]
      exact getCanonicalState_le b hlen u hu8
    have hle2 : lexLt m2 m1 = false := by
      rw [hm2]
      exact getCanonicalState_le (applyTransform b (tf j)) htblen v hv8
    rcases lexLt_connex m1 m2 with h | h | h
    · rw [hle1] at h
      cases h
    · rw [hle2] at h
      cases h
    · exact h
  refine ⟨hinv, hmem, getCanonicalState_le b hlen, ?_⟩
  obtain ⟨k, hk8, hck⟩ := hmem
  calc (getCanonicalState (canonicalToBoard (getCanonicalState b).1)).1
      = (getCanonicalState (applyTransform b (tf k))).1 := by
        rw [hck, canonicalToBoard_boardToString]
    _ = (getCanonicalState b).1 := hinv k hk8

/-- C5 witness: the board with a single X in cell 2. -/
theorem C5_canonicalization_witness :
    (∀ j, j < 8 →
      (getCanonicalState (applyTransform
        [none, none, some Player.X, none, none, none, none, none, none]
        (tf j))).1
      = (getCanonicalState
        [none, none, some Player.X, none, none, none, none, none, none]).1) ∧
    (∃ k, k < 8 ∧
      (getCanonicalState
        [none, none, some Player.X, none, none, none, none, none, none]).1
      = boardToString (applyTransform
        [none, none, some Player.X, none, none, none, none, none, none]
        (tf k))) ∧
    (∀ k, k < 8 →
      lexLt (boardToString (applyTransform
        [none, none, some Player.X, none, none, none, none, none, none]
        (tf k)))
        (getCanonicalState
          [none, none, some Player.X, none, none, none, none, none, none]).1
        = false) ∧
    (getCanonicalState (canonicalToBoard (getCanonicalState
        [none, none, some Player.X, none, none, none, none, none, none]).1)).1
      = (getCanonicalState
        [none, none, some Player.X, none, none, none, none, none, none]).1 :=
  C5_canonicalization _ (by decide)

end Menace
